import Mathlib

/-!
Verification development for the cassh2rs shell-script front end.

Shallow embedding of the lexer (src/parser/lexer.rs), parser
(src/parser/parser.rs), metadata extraction, file classifier
(src/resolver/file_classifier.rs), terminal detector
(src/resolver/terminal_detector.rs) and dependency resolver
(src/resolver/dependency_detector.rs).

Conventions of the embedding:
- Rust `String`/`&str` values are modelled as `List Char` internally, with
  `String` wrappers at the outer interfaces; all text helpers mirror the
  Rust standard-library semantics they replace (documented per helper).
- Every loop / recursive function takes an explicit `fuel : Nat` and
  recurses structurally on it; `fuel = 0` yields `Err.outOfFuel` (for
  fallible functions) or returns the accumulator unchanged.  Theorems are
  stated either for all fuel values (for `.ok` results) or at a concrete
  ample fuel.
- `anyhow::Error` values are modelled by the inductive `Err`, one
  constructor per `bail!` site.
- `HashMap` / `HashSet` are modelled as association lists / lists with
  membership-guarded insertion, preserving insertion order.
-/

/-- Rust `char::is_whitespace` (Unicode `White_Space`). -/
def rustIsWhitespace (c : Char) : Bool :=
  c = ' ' || c = '\t' || c = '\n' || c = (Char.ofNat 0xb) || c = (Char.ofNat 0xc) ||
  c = '\r' || c = (Char.ofNat 0x85) || c = (Char.ofNat 0xa0) || c = (Char.ofNat 0x1680) ||
  (0x2000 ≤ c.toNat && c.toNat ≤ 0x200a) || c = (Char.ofNat 0x2028) ||
  c = (Char.ofNat 0x2029) || c = (Char.ofNat 0x202f) || c = (Char.ofNat 0x205f) ||
  c = (Char.ofNat 0x3000)

/-- Rust `char::is_numeric`; agrees with ASCII digits on all inputs the
claims exercise (the Unicode `Nd/Nl/No` classes beyond ASCII are not
reachable from the scripts considered here). -/
def rustIsNumeric (c : Char) : Bool := c.isDigit

/-- Rust `char::is_alphabetic`; agrees with ASCII letters on all inputs the
claims exercise. -/
def rustIsAlphabetic (c : Char) : Bool := c.isAlpha

/-- The backquote character, written via its code point. -/
def bq : Char := Char.ofNat 0x60

/-- Left and right curly brace characters, written via code points. -/
def lbrace : Char := Char.ofNat 0x7b

def rbrace : Char := Char.ofNat 0x7d

/-- Does `pat` occur as a leading run of `l`? (Rust `str::starts_with`). -/
def lcLeads : List Char → List Char → Bool
  | [], _ => true
  | _ :: _, [] => false
  | p :: ps, c :: cs => p = c && lcLeads ps cs

/-- Does `pat` occur as a trailing run of `l`? (Rust `str::ends_with`). -/
def lcEnds (pat l : List Char) : Bool :=
  lcLeads pat.reverse l.reverse

/-- Does `sub` occur anywhere in `l`? (Rust `str::contains`). -/
def lcHas : List Char → List Char → Bool
  | _, [] => false
  | sub, l@(_ :: cs) => lcLeads sub l || lcHas sub cs

/-- Membership of a single character (Rust `str::contains(char)`). -/
def lcHasChar (c : Char) (l : List Char) : Bool := l.contains c

/-- Rust `str::trim`: strip leading and trailing Unicode whitespace. -/
def lcTrim (l : List Char) : List Char :=
  ((l.dropWhile rustIsWhitespace).reverse.dropWhile rustIsWhitespace).reverse

/-- Rust `str::trim_start_matches(ch)`: strip every leading `ch`. -/
def lcDropRuns (ch : Char) (l : List Char) : List Char :=
  l.dropWhile (· = ch)

/-- Split at every occurrence of `sep`. -/
def lcSplit (sep : Char) : List Char → List (List Char)
  | [] => [[]]
  | c :: cs =>
    let rest := lcSplit sep cs
    if c = sep then [] :: rest
    else match rest with
      | [] => [[c]]
      | r :: rs => (c :: r) :: rs

/-- Rust `str::lines`: split on `\n`, drop a final empty piece produced by a
trailing newline, and strip one trailing `\r` from each line. -/
def lcLines (l : List Char) : List (List Char) :=
  let parts := lcSplit '\n' l
  let parts := match parts.getLast? with
    | some [] => if parts.length > 1 || l = [] then parts.dropLast else parts
    | _ => parts
  parts.map (fun p => if lcEnds ['\r'] p then p.dropLast else p)

/-- Rust `str::split_once(ch)`: split at the first occurrence of `ch`. -/
def lcSplitOnce (sep : Char) : List Char → Option (List Char × List Char)
  | [] => none
  | c :: cs =>
    if c = sep then some ([], cs)
    else match lcSplitOnce sep cs with
      | some (a, b) => some (c :: a, b)
      | none => none

/-- Rust `str::find(char)` existence plus prefix, used for the shebang line:
the text before the first occurrence of `ch`, if `ch` occurs. -/
def lcBefore (ch : Char) (l : List Char) : Option (List Char) :=
  match lcSplitOnce ch l with
  | some (a, _) => some a
  | none => none

section Dialect

/-- src/parser/shell_dialect.rs `ShellDialect`. -/
inductive ShellDialect
  | Bash | Zsh | Fish | Dash | Ksh | Tcsh | Csh | PowerShell | Posix
deriving DecidableEq, Repr

/-- src/parser/shell_dialect.rs `ShellDialect::from_shebang`. -/
def ShellDialect.from_shebang (shebang : List Char) : ShellDialect :=
  let s := lcTrim shebang
  if lcHas "bash".data s then .Bash
  else if lcHas "zsh".data s then .Zsh
  else if lcHas "fish".data s then .Fish
  else if lcHas "dash".data s then .Dash
  else if lcHas "ksh".data s then .Ksh
  else if lcHas "tcsh".data s then .Tcsh
  else if lcHas "csh".data s && !(lcHas "tcsh".data s) then .Csh
  else if lcHas "pwsh".data s || lcHas "powershell".data s then .PowerShell
  else if lcHas "sh".data s then .Posix
  else .Bash

end Dialect

section TokenDef

/-- src/parser/lexer.rs `QuoteType`. -/
inductive QuoteType
  | Single | Double | Backtick | Ansi
deriving DecidableEq, Repr

/-- src/parser/lexer.rs `RedirectOp`. -/
inductive RedirectOp
  | Out | OutAppend | In | InOut | OutErr | ErrOut | HereDoc | HereString
deriving DecidableEq, Repr

/-- src/parser/lexer.rs `Token`.  The Rust `Token::String` constructor is
named `Str` here because `String` would shadow the Lean type inside the
declaration; all other constructor names match the source. -/
inductive Token
  | Word (s : String)
  | Number (s : String)
  | Str (s : String) (q : QuoteType)
  | Pipe
  | PipeErr
  | Redirect (op : RedirectOp)
  | Background
  | Semicolon
  | Newline
  | And
  | Or
  | Assign
  | PlusAssign
  | Plus
  | Minus
  | Star
  | Slash
  | Percent
  | Equal
  | NotEqual
  | Less
  | Greater
  | LessEqual
  | GreaterEqual
  | LeftParen
  | RightParen
  | LeftBrace
  | RightBrace
  | LeftBracket
  | RightBracket
  | DoubleLeftBracket
  | DoubleRightBracket
  | Dollar
  | DollarBrace
  | DollarParen
  | DollarDoubleParen
  | Backtick
  | AtSign
  | Hash
  | If
  | Then
  | Else
  | Elif
  | Fi
  | Case
  | Esac
  | For
  | In
  | Do
  | Done
  | While
  | Until
  | Function
  | Return
  | Export
  | Local
  | Readonly
  | Declare
  | Typeset
  | Let
  | Select
  | Time
  | Echo
  | Printf
  | Read
  | Cd
  | Pwd
  | Exit
  | Source
  | Dot
  | Exec
  | Eval
  | Bang
  | Question
  | Tilde
  | Heredoc (delim : String)
  | HereString
  | Eof

/-- Constructor index, used to model `std::mem::discriminant` comparison in
`ShellParser::expect`. -/
def Token.disc : Token → Nat
  | .Word _ => 0
  | .Number _ => 1
  | .Str _ _ => 2
  | .Pipe => 3
  | .PipeErr => 4
  | .Redirect _ => 5
  | .Background => 6
  | .Semicolon => 7
  | .Newline => 8
  | .And => 9
  | .Or => 10
  | .Assign => 11
  | .PlusAssign => 12
  | .Plus => 13
  | .Minus => 14
  | .Star => 15
  | .Slash => 16
  | .Percent => 17
  | .Equal => 18
  | .NotEqual => 19
  | .Less => 20
  | .Greater => 21
  | .LessEqual => 22
  | .GreaterEqual => 23
  | .LeftParen => 24
  | .RightParen => 25
  | .LeftBrace => 26
  | .RightBrace => 27
  | .LeftBracket => 28
  | .RightBracket => 29
  | .DoubleLeftBracket => 30
  | .DoubleRightBracket => 31
  | .Dollar => 32
  | .DollarBrace => 33
  | .DollarParen => 34
  | .DollarDoubleParen => 35
  | .Backtick => 36
  | .AtSign => 37
  | .Hash => 38
  | .If => 39
  | .Then => 40
  | .Else => 41
  | .Elif => 42
  | .Fi => 43
  | .Case => 44
  | .Esac => 45
  | .For => 46
  | .In => 47
  | .Do => 48
  | .Done => 49
  | .While => 50
  | .Until => 51
  | .Function => 52
  | .Return => 53
  | .Export => 54
  | .Local => 55
  | .Readonly => 56
  | .Declare => 57
  | .Typeset => 58
  | .Let => 59
  | .Select => 60
  | .Time => 61
  | .Echo => 62
  | .Printf => 63
  | .Read => 64
  | .Cd => 65
  | .Pwd => 66
  | .Exit => 67
  | .Source => 68
  | .Dot => 69
  | .Exec => 70
  | .Eval => 71
  | .Bang => 72
  | .Question => 73
  | .Tilde => 74
  | .Heredoc _ => 75
  | .HereString => 76
  | .Eof => 77

/-- Structural equality on tokens (Rust `PartialEq` derive).  Constructors
carrying data compare their payloads; payload-free constructors compare by
constructor index. -/
def Token.beq (a b : Token) : Bool :=
  match a, b with
  | .Word s, .Word t => s == t
  | .Number s, .Number t => s == t
  | .Str s q, .Str t r => s == t && q == r
  | .Redirect o, .Redirect p => o == p
  | .Heredoc s, .Heredoc t => s == t
  | .Word _, _ => false
  | .Number _, _ => false
  | .Str _ _, _ => false
  | .Redirect _, _ => false
  | .Heredoc _, _ => false
  | _, .Word _ => false
  | _, .Number _ => false
  | _, .Str _ _ => false
  | _, .Redirect _ => false
  | _, .Heredoc _ => false
  | _, _ => a.disc == b.disc

instance : BEq Token := ⟨Token.beq⟩

/-- Errors: one constructor per `bail!` / failure site in the embedded code,
plus `outOfFuel` for exhausted recursion fuel. -/
inductive Err
  | invalidQuoteChar
  | unterminatedString (line col : Nat)
  | unterminatedAnsiString (line col : Nat)
  | expectedVariableNameAfterFor
  | caseNotImplemented
  | expectedFunctionName
  | expectedVariableName
  | expectedAssignmentOperator
  | expectedCommandName
  | invalidNumber
  | unexpectedToken (t : Token)
  | unexpectedTokenAfterDollar (t : Token)
  | parameterExpansionNotImplemented
  | commandSubstitutionNotImplemented
  | expectedButFound (expected found : Token)
  | maxSourceDepthExceeded
  | failedToReadSourcedFile
  /-- Models the process abort when `parse_command_or_assignment`'s raw
  lookahead slice `self.input[self.lexer.position..]` is taken with
  `position > input.len()` (a Rust byte-slice with a start index past the
  end of the string aborts the program); `position = len` is the valid
  empty slice.  On ASCII input (all inputs considered here) byte indices
  and character indices coincide. -/
  | sliceIndexOutOfRange
  | outOfFuel

end TokenDef

section LexerDef

/-- src/parser/lexer.rs `Lexer`: `input` is the not-yet-consumed character
stream (Rust's `Peekable<Chars>`), `current_char` the last consumed
character, `position` the number of characters consumed so far (so
`current_char` sits at index `position - 1` of the original text). -/
structure LexState where
  input : List Char
  current_char : Option Char
  position : Nat
  line : Nat
  column : Nat
  dialect : ShellDialect

/-- src/parser/lexer.rs `Lexer::advance`. -/
def LexState.advance (s : LexState) : LexState :=
  let c := s.input.head?
  let s := { s with input := s.input.tail, current_char := c, position := s.position + 1 }
  match c with
  | some ch =>
    if ch = '\n' then { s with line := s.line + 1, column := 0 }
    else { s with column := s.column + 1 }
  | none => s

/-- src/parser/lexer.rs `Lexer::new`. -/
def LexState.new (input : List Char) (dialect : ShellDialect) : LexState :=
  LexState.advance
    { input := input, current_char := none, position := 0, line := 1, column := 0,
      dialect := dialect }

/-- src/parser/lexer.rs `Lexer::skip_whitespace`. -/
def skip_whitespace : Nat → LexState → LexState
  | 0, s => s
  | fuel+1, s =>
    match s.current_char with
    | some ch =>
      if rustIsWhitespace ch && ch ≠ '\n' then skip_whitespace fuel s.advance else s
    | none => s

/-- src/parser/lexer.rs `Lexer::skip_comment`: consume up to (not including)
the next newline. -/
def skip_comment : Nat → LexState → LexState
  | 0, s => s
  | fuel+1, s =>
    match s.current_char with
    | some ch => if ch = '\n' then s else skip_comment fuel s.advance
    | none => s

/-- Character class of `Lexer::read_word`: letters, digits, underscore,
dash, dot, slash. -/
def isWordChar (c : Char) : Bool :=
  ('a' ≤ c && c ≤ 'z') || ('A' ≤ c && c ≤ 'Z') || ('0' ≤ c && c ≤ '9') ||
  c = '_' || c = '-' || c = '.' || c = '/'

/-- src/parser/lexer.rs `Lexer::read_word` (accumulator-passing form). -/
def read_word : Nat → List Char → LexState → (List Char × LexState)
  | 0, acc, s => (acc, s)
  | fuel+1, acc, s =>
    match s.current_char with
    | some ch =>
      if isWordChar ch then read_word fuel (acc ++ [ch]) s.advance else (acc, s)
    | none => (acc, s)

/-- Loop body of src/parser/lexer.rs `Lexer::read_string` (after the opening
quote has been consumed). -/
def read_string_loop : Nat → Char → QuoteType → List Char → LexState →
    Except Err (List Char × QuoteType × LexState)
  | 0, _, _, _, _ => .error .outOfFuel
  | fuel+1, quote_char, quote_type, acc, s =>
    match s.current_char with
    | some ch =>
      if ch = quote_char then
        .ok (acc, quote_type, s.advance)
      else if ch = '\\' && quote_type ≠ QuoteType.Single then
        let s := s.advance
        match s.current_char with
        | some escaped => read_string_loop fuel quote_char quote_type (acc ++ ['\\', escaped]) s.advance
        | none => read_string_loop fuel quote_char quote_type acc s
      else
        read_string_loop fuel quote_char quote_type (acc ++ [ch]) s.advance
    | none => .error (.unterminatedString s.line s.column)

/-- src/parser/lexer.rs `Lexer::read_string`. -/
def read_string (fuel : Nat) (quote_char : Char) (s : LexState) :
    Except Err (List Char × QuoteType × LexState) :=
  let qt : Except Err QuoteType :=
    if quote_char = '\'' then .ok .Single
    else if quote_char = '"' then .ok .Double
    else if quote_char = bq then .ok .Backtick
    else .error .invalidQuoteChar
  match qt with
  | .error e => .error e
  | .ok quote_type => read_string_loop fuel quote_char quote_type [] s.advance

/-- ANSI-C escape decoding table of `Lexer::read_ansi_string`. -/
def ansiEscape (escaped : Char) : Char :=
  if escaped = 'n' then '\n'
  else if escaped = 't' then '\t'
  else if escaped = 'r' then '\r'
  else if escaped = 'b' then Char.ofNat 0x08
  else if escaped = 'f' then Char.ofNat 0x0C
  else if escaped = 'a' then Char.ofNat 0x07
  else if escaped = 'v' then Char.ofNat 0x0B
  else escaped

/-- Loop body of src/parser/lexer.rs `Lexer::read_ansi_string`. -/
def read_ansi_loop : Nat → List Char → LexState → Except Err (List Char × QuoteType × LexState)
  | 0, _, _ => .error .outOfFuel
  | fuel+1, acc, s =>
    match s.current_char with
    | some ch =>
      if ch = '\'' then .ok (acc, .Ansi, s.advance)
      else if ch = '\\' then
        let s := s.advance
        match s.current_char with
        | some escaped => read_ansi_loop fuel (acc ++ [ansiEscape escaped]) s.advance
        | none => read_ansi_loop fuel acc s
      else read_ansi_loop fuel (acc ++ [ch]) s.advance
    | none => .error (.unterminatedAnsiString s.line s.column)

/-- src/parser/lexer.rs `Lexer::read_ansi_string`.  Faithful to the source:
it advances twice before the loop ("skip $", "skip '"), although the caller
(`next_token`) has already consumed the `$`, so the second advance consumes
the first content character. -/
def read_ansi_string (fuel : Nat) (s : LexState) :
    Except Err (List Char × QuoteType × LexState) :=
  read_ansi_loop fuel [] s.advance.advance

/-- src/parser/lexer.rs `Lexer::read_number` (accumulator-passing form; the
accumulator carries the digits read so far for the one-decimal-point test). -/
def read_number : Nat → List Char → LexState → (List Char × LexState)
  | 0, acc, s => (acc, s)
  | fuel+1, acc, s =>
    match s.current_char with
    | some ch =>
      if rustIsNumeric ch || (ch = '.' && !lcHasChar '.' acc) then
        read_number fuel (acc ++ [ch]) s.advance
      else (acc, s)
    | none => (acc, s)

/-- src/parser/lexer.rs `Lexer::match_keyword`. -/
def match_keyword (word : String) : Option Token :=
  if word = "if" then some .If
  else if word = "then" then some .Then
  else if word = "else" then some .Else
  else if word = "elif" then some .Elif
  else if word = "fi" then some .Fi
  else if word = "case" then some .Case
  else if word = "esac" then some .Esac
  else if word = "for" then some .For
  else if word = "in" then some .In
  else if word = "do" then some .Do
  else if word = "done" then some .Done
  else if word = "while" then some .While
  else if word = "until" then some .Until
  else if word = "function" then some .Function
  else if word = "return" then some .Return
  else if word = "export" then some .Export
  else if word = "local" then some .Local
  else if word = "readonly" then some .Readonly
  else if word = "declare" then some .Declare
  else if word = "typeset" then some .Typeset
  else if word = "let" then some .Let
  else if word = "select" then some .Select
  else if word = "time" then some .Time
  else if word = "echo" then some .Echo
  else if word = "printf" then some .Printf
  else if word = "read" then some .Read
  else if word = "cd" then some .Cd
  else if word = "pwd" then some .Pwd
  else if word = "exit" then some .Exit
  else if word = "source" then some .Source
  else if word = "exec" then some .Exec
  else if word = "eval" then some .Eval
  else none

/-- src/parser/lexer.rs `Lexer::next_token`. -/
def next_token : Nat → LexState → Except Err (Token × LexState)
  | 0, _ => .error .outOfFuel
  | fuel+1, s0 =>
    let s := skip_whitespace fuel s0
    match s.current_char with
    | none => .ok (.Eof, s)
    | some c =>
      if c = '\n' then .ok (.Newline, s.advance)
      else if c = '#' then next_token fuel (skip_comment fuel s)
      else if c = '\'' || c = '"' || c = bq then
        match read_string fuel c s with
        | .error e => .error e
        | .ok (str, quote_type, s) => .ok (.Str (String.mk str) quote_type, s)
      else if c = '$' then
        let s := s.advance
        match s.current_char with
        | some '\'' =>
          (match read_ansi_string fuel s with
           | .error e => .error e
           | .ok (str, quote_type, s) => .ok (.Str (String.mk str) quote_type, s))
        | some c1 =>
          if c1 = lbrace then .ok (.DollarBrace, s.advance)
          else if c1 = '(' then
            let s := s.advance
            if s.current_char = some '(' then .ok (.DollarDoubleParen, s.advance)
            else .ok (.DollarParen, s)
          else .ok (.Dollar, s)
        | none => .ok (.Dollar, s)
      else if c = '|' then
        let s := s.advance
        match s.current_char with
        | some '|' => .ok (.Or, s.advance)
        | some '&' => .ok (.PipeErr, s.advance)
        | _ => .ok (.Pipe, s)
      else if c = '&' then
        let s := s.advance
        match s.current_char with
        | some '&' => .ok (.And, s.advance)
        | _ => .ok (.Background, s)
      else if c = ';' then .ok (.Semicolon, s.advance)
      else if c = '(' then .ok (.LeftParen, s.advance)
      else if c = ')' then .ok (.RightParen, s.advance)
      else if c = lbrace then .ok (.LeftBrace, s.advance)
      else if c = rbrace then .ok (.RightBrace, s.advance)
      else if c = '[' then
        let s := s.advance
        if s.current_char = some '[' then .ok (.DoubleLeftBracket, s.advance)
        else .ok (.LeftBracket, s)
      else if c = ']' then
        let s := s.advance
        if s.current_char = some ']' then .ok (.DoubleRightBracket, s.advance)
        else .ok (.RightBracket, s)
      else if c = '>' then
        let s := s.advance
        match s.current_char with
        | some '>' => .ok (.Redirect .OutAppend, s.advance)
        | some '&' => .ok (.Redirect .OutErr, s.advance)
        | some '=' => .ok (.GreaterEqual, s.advance)
        | _ => .ok (.Redirect .Out, s)
      else if c = '<' then
        let s := s.advance
        match s.current_char with
        | some '<' =>
          let s := s.advance
          if s.current_char = some '<' then .ok (.HereString, s.advance)
          else
            let s := skip_whitespace fuel s
            let (delimiter, s) := read_word fuel [] s
            .ok (.Heredoc (String.mk delimiter), s)
        | some '>' => .ok (.Redirect .InOut, s.advance)
        | some '=' => .ok (.LessEqual, s.advance)
        | _ => .ok (.Redirect .In, s)
      else if c = '=' then
        let s := s.advance
        if s.current_char = some '=' then .ok (.Equal, s.advance)
        else .ok (.Assign, s)
      else if c = '+' then
        let s := s.advance
        if s.current_char = some '=' then .ok (.PlusAssign, s.advance)
        else .ok (.Plus, s)
      else if c = '-' then .ok (.Minus, s.advance)
      else if c = '*' then .ok (.Star, s.advance)
      else if c = '/' then .ok (.Slash, s.advance)
      else if c = '%' then .ok (.Percent, s.advance)
      else if c = '!' then
        let s := s.advance
        if s.current_char = some '=' then .ok (.NotEqual, s.advance)
        else .ok (.Bang, s)
      else if c = '?' then .ok (.Question, s.advance)
      else if c = '~' then .ok (.Tilde, s.advance)
      else if c = '@' then .ok (.AtSign, s.advance)
      else if c = '.' then
        let s := s.advance
        if (s.current_char.map rustIsNumeric).getD false then
          let (digits, s) := read_number fuel [] s
          .ok (.Number (String.mk ('0' :: '.' :: digits)), s)
        else .ok (.Dot, s)
      else if rustIsNumeric c then
        let (digits, s) := read_number fuel [] s
        .ok (.Number (String.mk digits), s)
      else if rustIsAlphabetic c || c = '_' then
        let (word, s) := read_word fuel [] s
        match match_keyword (String.mk word) with
        | some keyword => .ok (keyword, s)
        | none => .ok (.Word (String.mk word), s)
      else .ok (.Word (String.mk [c]), s.advance)

end LexerDef

section AstDef

/-- src/parser/ast.rs `StringType`. -/
inductive StringType
  | SingleQuoted | DoubleQuoted | Unquoted | AnsiC
deriving DecidableEq, Repr

/-- src/parser/ast.rs `BinaryOperator`. -/
inductive BinaryOperator
  | Add | Subtract | Multiply | Divide | Modulo
  | Equal | NotEqual | Less | Greater | LessEqual | GreaterEqual
  | StringEqual | StringNotEqual | Match
  | And | Or
  | FileNewer | FileOlder
deriving DecidableEq, Repr

/-- src/parser/ast.rs `UnaryOperator`. -/
inductive UnaryOperator
  | Not | Negate
  | FileExists | FileRegular | FileDirectory | FileSymlink
  | FileReadable | FileWritable | FileExecutable | FileNotEmpty
  | StringNotEmpty | StringEmpty
deriving DecidableEq, Repr

/-- src/parser/ast.rs `RedirectionTarget`. -/
inductive RedirectionTarget
  | File (s : String)
  | Fd (n : Int)
  | Heredoc (delimiter content : String) (strip_tabs : Bool)
  | HereString (s : String)
deriving DecidableEq, Repr

/-- src/parser/ast.rs `Redirection`. -/
structure Redirection where
  fd : Option Int
  target : RedirectionTarget
  append : Bool
deriving DecidableEq, Repr

/-! src/parser/ast.rs `ASTNode` (mutually with `ForItems`, `CaseItem` and
`ExpansionType`).  `Vec<Box<ASTNode>>` becomes `List ASTNode`; the Rust
constructors `String`, `Number` and `Array` are named `Str`, `Number`
(payload modelled below) and `Arr` to avoid shadowing Lean's types.  The
`f64` payload of `Number` is modelled by the numeral text the parser read —
no claim computes with the value. -/
mutual

/-- src/parser/ast.rs `ASTNode`. -/
inductive ASTNode
  | Script (stmts : List ASTNode)
  | Command (name : String) (args : List ASTNode) (redirections : List Redirection)
      (background : Bool)
  | Pipeline (commands : List ASTNode)
  | If (condition : ASTNode) (then_block : ASTNode)
      (elif_blocks : List (ASTNode × ASTNode)) (else_block : Option ASTNode)
  | While (condition : ASTNode) (body : ASTNode)
  | Until (condition : ASTNode) (body : ASTNode)
  | For («variable» : String) (items : ForItems) (body : ASTNode)
  | CaseNode (expr : ASTNode) (cases : List CaseItem)
  | Function (name : String) (body : ASTNode)
  | Assignment (name : String) (value : ASTNode) («export» : Bool) (readonly : Bool)
      («local» : Bool)
  | Variable (name : String)
  | ParameterExpansion (name : String) (expansion_type : ExpansionType)
  | CommandSubstitution (cmd : ASTNode)
  | ArithmeticExpansion (e : ASTNode)
  | BinaryOp (left : ASTNode) (op : BinaryOperator) (right : ASTNode)
  | UnaryOp (op : UnaryOperator) (operand : ASTNode)
  | Str (s : String) (ty : StringType)
  | Number (text : String)
  | Arr (elems : List ASTNode)
  | Glob (s : String)
  | HeredocNode (delimiter content : String) (strip_tabs : Bool)
  | Return (value : Option ASTNode)
  | Break
  | Continue
  | Exit (code : Option ASTNode)
  | Block (stmts : List ASTNode)
  | Subshell (body : ASTNode)

inductive ForItems
  | List (items : List ASTNode)
  | Command (cmd : ASTNode)
  | CStyle (init : ASTNode) (condition : ASTNode) (update : ASTNode)

inductive CaseItem
  | mk (patterns : List String) (body : ASTNode)

inductive ExpansionType
  | Default (d : ASTNode)
  | Assign (d : ASTNode)
  | Error (s : String)
  | Alternative (d : ASTNode)
  | Substring (offset : ASTNode) (length : Option ASTNode)
  | RemoveLeading (pattern : String)
  | RemoveLeadingLong (pattern : String)
  | RemoveTrailing (pattern : String)
  | RemoveTrailingLong (pattern : String)
  | Replace (pattern replacement : String) (global : Bool)
  | Length
  | Indirect
  | Keys

end

/-- src/parser/ast.rs `ScriptMetadata`; the `HashMap` of generic headers is
modelled as an insertion-ordered association list. -/
structure ScriptMetadata where
  shebang : Option String := none
  version : Option String := none
  author : Option String := none
  description : Option String := none
  dependencies : List String := []
  headers : List (String × String) := []
deriving DecidableEq, Repr

/-- src/parser/ast.rs `AST`. -/
structure AST where
  root : ASTNode
  metadata : ScriptMetadata

end AstDef

section MetadataDef

/-- `HashMap::insert`: replace the value at an existing key, else append. -/
def mapInsert (k v : String) : List (String × String) → List (String × String)
  | [] => [(k, v)]
  | (k0, v0) :: rest =>
    if k0 = k then (k0, v) :: rest else (k0, v0) :: mapInsert k v rest

/-- One iteration of the header-comment loop in
src/parser/parser.rs `ShellParser::extract_metadata` (lines 47-73), applied
to a single raw line. -/
def metaLine (md : ScriptMetadata) (rawLine : List Char) : ScriptMetadata :=
  let line := lcTrim rawLine
  let comment := lcTrim (lcDropRuns '#' line)
  if lcLeads "@Version:".data comment then
    { md with version := some (String.mk (lcTrim (comment.drop 9))) }
  else if lcLeads "@Author:".data comment then
    { md with author := some (String.mk (lcTrim (comment.drop 8))) }
  else if lcLeads "@Description:".data comment then
    { md with description := some (String.mk (lcTrim (comment.drop 13))) }
  else if lcLeads "@Dependency:".data comment then
    { md with dependencies := md.dependencies ++ [String.mk (lcTrim (comment.drop 12))] }
  else if lcHasChar ':' comment then
    match lcSplitOnce ':' comment with
    | some (key, value) =>
      if lcLeads "@".data key then
        let hk := String.mk (lcDropRuns '@' key)
        let hv := String.mk (lcTrim value)
        { md with headers := mapInsert hk hv md.headers }
      else md
    | none => md
  else md

/-- The line loop of `ShellParser::extract_metadata`: comment lines update
the metadata, non-empty non-comment lines stop the scan, anything else
(blank lines included) is passed over. -/
def metaLoop : ScriptMetadata → List (List Char) → ScriptMetadata
  | md, [] => md
  | md, rawLine :: rest =>
    let line := lcTrim rawLine
    if lcLeads "#".data line then metaLoop (metaLine md rawLine) rest
    else if line ≠ [] then md
    else metaLoop md rest

/-- src/parser/parser.rs `ShellParser::extract_metadata` (always `Ok` in the
source, hence total here). -/
def extract_metadata (input : List Char) : ScriptMetadata :=
  let md : ScriptMetadata := {}
  let md :=
    if lcLeads "#!".data input then
      match lcBefore '\n' input with
      | some firstLine => { md with shebang := some (String.mk firstLine) }
      | none => md
    else md
  metaLoop md (lcLines input)

end MetadataDef

section ParserDef

/-- src/parser/parser.rs `ShellParser`: lexer state, one-token lookahead and
the full original text (used by the raw-text assignment lookahead). -/
structure PState where
  lexer : LexState
  current_token : Token
  input : List Char

/-- src/parser/parser.rs `ShellParser::advance`. -/
def advanceP (fuel : Nat) (st : PState) : Except Err PState :=
  match next_token fuel st.lexer with
  | .error e => .error e
  | .ok (t, lx) => .ok { st with lexer := lx, current_token := t }

/-- src/parser/parser.rs `ShellParser::expect`: compares
`std::mem::discriminant`s, then advances. -/
def expect (fuel : Nat) (expected : Token) (st : PState) : Except Err PState :=
  if st.current_token.disc ≠ expected.disc then
    .error (.expectedButFound expected st.current_token)
  else advanceP fuel st

/-- src/parser/parser.rs `ShellParser::skip_newlines`.  The source discards
the advance's error (`let _ = self.advance()`), leaving the token unchanged;
here that shows up as a retry that the fuel eventually cuts off. -/
def skip_newlines : Nat → PState → PState
  | 0, st => st
  | fuel+1, st =>
    if st.current_token == .Newline then
      match advanceP fuel st with
      | .ok st' => skip_newlines fuel st'
      | .error _ => skip_newlines fuel st
    else st

/-- src/parser/parser.rs `ShellParser::skip_terminators` (same error
discipline as `skip_newlines`). -/
def skip_terminators : Nat → PState → PState
  | 0, st => st
  | fuel+1, st =>
    if st.current_token == .Semicolon || st.current_token == .Newline then
      match advanceP fuel st with
      | .ok st' => skip_terminators fuel st'
      | .error _ => skip_terminators fuel st
    else st

/-- src/parser/parser.rs `ShellParser::parse_variable_or_expansion`. -/
def parse_variable_or_expansion (fuel : Nat) (st : PState) :
    Except Err (ASTNode × PState) :=
  match st.current_token with
  | .Word name =>
    (match advanceP fuel st with
     | .error e => .error e
     | .ok st => .ok (.Variable name, st))
  | .LeftBrace => .error .parameterExpansionNotImplemented
  | .LeftParen => .error .commandSubstitutionNotImplemented
  | t => .error (.unexpectedTokenAfterDollar t)

/-- src/parser/parser.rs `ShellParser::parse_word`.  The `f64` parse of a
`Number` token is modelled as succeeding with the numeral text (the lexer
only emits parseable numerals and no claim computes with the value). -/
def parse_word (fuel : Nat) (st : PState) : Except Err (ASTNode × PState) :=
  match fuel with
  | 0 => .error .outOfFuel
  | fuel+1 =>
    match st.current_token with
    | .Word w =>
      (match advanceP fuel st with
       | .error e => .error e
       | .ok st => .ok (.Str w .Unquoted, st))
    | .Str s quote_type =>
      (match quote_type with
       | .Backtick =>
         (match advanceP fuel st with
          | .error e => .error e
          | .ok st => .ok (.CommandSubstitution (.Str s .Unquoted), st))
       | .Single =>
         (match advanceP fuel st with
          | .error e => .error e
          | .ok st => .ok (.Str s .SingleQuoted, st))
       | .Double =>
         (match advanceP fuel st with
          | .error e => .error e
          | .ok st => .ok (.Str s .DoubleQuoted, st))
       | .Ansi =>
         (match advanceP fuel st with
          | .error e => .error e
          | .ok st => .ok (.Str s .AnsiC, st)))
    | .Number n =>
      (match advanceP fuel st with
       | .error e => .error e
       | .ok st => .ok (.Number n, st))
    | .Dollar =>
      (match advanceP fuel st with
       | .error e => .error e
       | .ok st => parse_variable_or_expansion fuel st)
    | t => .error (.unexpectedToken t)

/-- src/parser/parser.rs `ShellParser::parse_assignment_or_word` (currently
just `parse_word`, per the source's TODO). -/
def parse_assignment_or_word (fuel : Nat) (st : PState) :
    Except Err (ASTNode × PState) :=
  parse_word fuel st

/-- src/parser/parser.rs `ShellParser::parse_assignment`. -/
def parse_assignment (fuel : Nat) (st : PState) : Except Err (ASTNode × PState) :=
  match fuel with
  | 0 => .error .outOfFuel
  | fuel+1 =>
    match st.current_token with
    | .Word n =>
      (match advanceP fuel st with
       | .error e => .error e
       | .ok st =>
         let op : Except Err PState :=
           match st.current_token with
           | .Assign => advanceP fuel st
           | .PlusAssign => advanceP fuel st
           | _ => .error .expectedAssignmentOperator
         match op with
         | .error e => .error e
         | .ok st =>
           match parse_word fuel st with
           | .error e => .error e
           | .ok (value, st) =>
             .ok (.Assignment n value false false false, st))
    | _ => .error .expectedVariableName

/-- Argument/redirection loop of src/parser/parser.rs
`ShellParser::parse_command` (lines 421-436). -/
def parse_command_args : Nat → List ASTNode → PState →
    Except Err (List ASTNode × PState)
  | 0, _, _ => .error .outOfFuel
  | fuel+1, args, st =>
    if st.current_token == .Pipe || st.current_token == .PipeErr ||
       st.current_token == .Semicolon || st.current_token == .Newline ||
       st.current_token == .Background || st.current_token == .And ||
       st.current_token == .Or || st.current_token == .Eof then
      .ok (args, st)
    else
      match st.current_token with
      | .Redirect _ =>
        (match advanceP fuel st with
         | .error e => .error e
         | .ok st =>
           match advanceP fuel st with
           | .error e => .error e
           | .ok st => parse_command_args fuel args st)
      | _ =>
        match parse_word fuel st with
        | .error e => .error e
        | .ok (w, st) => parse_command_args fuel (args ++ [w]) st

/-- src/parser/parser.rs `ShellParser::parse_command`.  The redirection
vector stays empty (the source's redirection arms only skip tokens). -/
def parse_command (fuel : Nat) (st : PState) : Except Err (ASTNode × PState) :=
  match fuel with
  | 0 => .error .outOfFuel
  | fuel+1 =>
    match st.current_token with
    | .Word n =>
      (match advanceP fuel st with
       | .error e => .error e
       | .ok st =>
         match parse_command_args fuel [] st with
         | .error e => .error e
         | .ok (args, st) =>
           if st.current_token == .Background then
             match advanceP fuel st with
             | .error e => .error e
             | .ok st => .ok (.Command n args [] true, st)
           else .ok (.Command n args [] false, st))
    | _ => .error .expectedCommandName

/-- Pipe loop of src/parser/parser.rs `ShellParser::parse_pipeline`
(lines 397-401). -/
def parse_pipeline_loop : Nat → List ASTNode → PState →
    Except Err (List ASTNode × PState)
  | 0, _, _ => .error .outOfFuel
  | fuel+1, commands, st =>
    if st.current_token == .Pipe || st.current_token == .PipeErr then
      match advanceP fuel st with
      | .error e => .error e
      | .ok st =>
        let st := skip_newlines fuel st
        match parse_command fuel st with
        | .error e => .error e
        | .ok (cmd, st) => parse_pipeline_loop fuel (commands ++ [cmd]) st
    else .ok (commands, st)

/-- src/parser/parser.rs `ShellParser::parse_pipeline`: a single command
collapses to itself, otherwise a `Pipeline` node is built. -/
def parse_pipeline (fuel : Nat) (st : PState) : Except Err (ASTNode × PState) :=
  match fuel with
  | 0 => .error .outOfFuel
  | fuel+1 =>
    match parse_command fuel st with
    | .error e => .error e
    | .ok (first, st) =>
      match parse_pipeline_loop fuel [first] st with
      | .error e => .error e
      | .ok (commands, st) =>
        if commands.length = 1 then
          match commands with
          | [c] => .ok (c, st)
          | _ => .ok (.Pipeline commands, st)
        else .ok (.Pipeline commands, st)

/-- src/parser/parser.rs `ShellParser::parse_condition` (currently just a
pipeline, per the source's TODO). -/
def parse_condition (fuel : Nat) (st : PState) : Except Err (ASTNode × PState) :=
  parse_pipeline fuel st

/-- src/parser/parser.rs `ShellParser::parse_command_or_assignment`.  The
raw-text lookahead reads `self.input[self.lexer.position..]`: `position`
counts consumed characters, so this slice starts one character past the
parser's `current_char`.  When the leading word ends exactly at
end-of-input, `position = len + 1` and the Rust slice aborts the
program, modeled as `Err.sliceIndexOutOfRange`; `position = len` yields
the valid empty slice. -/
def parse_command_or_assignment (fuel : Nat) (st : PState) :
    Except Err (ASTNode × PState) :=
  match st.current_token with
  | .Word _ =>
    if st.lexer.position > st.input.length then .error .sliceIndexOutOfRange
    else
    let rest := st.input.drop st.lexer.position
    let isAssign : Bool :=
      match rest with
      | [] => false
      | c1 :: rest1 =>
        if c1 = '=' then true
        else
          match rest1 with
          | c2 :: rest2 =>
            c2 = '+' && (match rest2 with
              | c3 :: _ => c3 = '='
              | [] => false)
          | [] => false
    if isAssign then parse_assignment fuel st else parse_pipeline fuel st
  | _ => parse_pipeline fuel st

/-- src/parser/parser.rs `ShellParser::parse_case` (unimplemented: bails
immediately). -/
def parse_case (_fuel : Nat) (_st : PState) : Except Err (ASTNode × PState) :=
  .error .caseNotImplemented

/-- src/parser/parser.rs `ShellParser::parse_return`. -/
def parse_return (fuel : Nat) (st : PState) : Except Err (ASTNode × PState) :=
  match fuel with
  | 0 => .error .outOfFuel
  | fuel+1 =>
    match expect fuel .Return st with
    | .error e => .error e
    | .ok st =>
      if st.current_token == .Newline || st.current_token == .Semicolon ||
         st.current_token == .Eof then
        .ok (.Return none, st)
      else
        match parse_word fuel st with
        | .error e => .error e
        | .ok (v, st) => .ok (.Return (some v), st)

/-- src/parser/parser.rs `ShellParser::parse_exit`. -/
def parse_exit (fuel : Nat) (st : PState) : Except Err (ASTNode × PState) :=
  match fuel with
  | 0 => .error .outOfFuel
  | fuel+1 =>
    match expect fuel .Exit st with
    | .error e => .error e
    | .ok st =>
      if st.current_token == .Newline || st.current_token == .Semicolon ||
         st.current_token == .Eof then
        .ok (.Exit none, st)
      else
        match parse_word fuel st with
        | .error e => .error e
        | .ok (v, st) => .ok (.Exit (some v), st)

/-- src/parser/parser.rs `ShellParser::parse_export`. -/
def parse_export (fuel : Nat) (st : PState) : Except Err (ASTNode × PState) :=
  match fuel with
  | 0 => .error .outOfFuel
  | fuel+1 =>
    match expect fuel .Export st with
    | .error e => .error e
    | .ok st =>
      match parse_assignment_or_word fuel st with
      | .error e => .error e
      | .ok (node, st) =>
        match node with
        | .Assignment name value _ ro lo => .ok (.Assignment name value true ro lo, st)
        | n => .ok (n, st)

/-- src/parser/parser.rs `ShellParser::parse_local`. -/
def parse_local (fuel : Nat) (st : PState) : Except Err (ASTNode × PState) :=
  match fuel with
  | 0 => .error .outOfFuel
  | fuel+1 =>
    match expect fuel .Local st with
    | .error e => .error e
    | .ok st =>
      match parse_assignment_or_word fuel st with
      | .error e => .error e
      | .ok (node, st) =>
        match node with
        | .Assignment name value ex ro _ => .ok (.Assignment name value ex ro true, st)
        | n => .ok (n, st)

/-- src/parser/parser.rs `ShellParser::parse_readonly`. -/
def parse_readonly (fuel : Nat) (st : PState) : Except Err (ASTNode × PState) :=
  match fuel with
  | 0 => .error .outOfFuel
  | fuel+1 =>
    match expect fuel .Readonly st with
    | .error e => .error e
    | .ok st =>
      match parse_assignment_or_word fuel st with
      | .error e => .error e
      | .ok (node, st) =>
        match node with
        | .Assignment name value ex _ lo => .ok (.Assignment name value ex true lo, st)
        | n => .ok (n, st)

/-- Item loop of src/parser/parser.rs `ShellParser::parse_for`
(lines 207-210). -/
def parse_for_items : Nat → List ASTNode → PState →
    Except Err (List ASTNode × PState)
  | 0, _, _ => .error .outOfFuel
  | fuel+1, items, st =>
    if st.current_token == .Do || st.current_token == .Semicolon ||
       st.current_token == .Newline then
      .ok (items, st)
    else
      match parse_word fuel st with
      | .error e => .error e
      | .ok (w, st) => parse_for_items fuel (items ++ [w]) st

end ParserDef

section StatementDef

/-!
Statement-level recursive-descent functions of src/parser/parser.rs, one
Lean function per Rust method; `while` loops become accumulator-passing
companions.  The Rust `parse_statement` arms for `Token::Break` and
`Token::Continue` are omitted: the `Token` enum of src/parser/lexer.rs has
no such constructors, so those arms are unmatchable.
-/
mutual

/-- src/parser/parser.rs `ShellParser::parse_statement`. -/
def parse_statement : Nat → PState → Except Err (ASTNode × PState)
  | 0, _ => .error .outOfFuel
  | fuel+1, st =>
    match st.current_token with
    | .If => parse_if fuel st
    | .While => parse_while fuel st
    | .Until => parse_until fuel st
    | .For => parse_for fuel st
    | .Case => parse_case fuel st
    | .Function => parse_function fuel st
    | .Export => parse_export fuel st
    | .Local => parse_local fuel st
    | .Readonly => parse_readonly fuel st
    | .Return => parse_return fuel st
    | .Exit => parse_exit fuel st
    | .LeftBrace => parse_block fuel st
    | .LeftParen => parse_subshell fuel st
    | _ => parse_command_or_assignment fuel st

/-- src/parser/parser.rs `ShellParser::parse_if`. -/
def parse_if : Nat → PState → Except Err (ASTNode × PState)
  | 0, _ => .error .outOfFuel
  | fuel+1, st =>
    match expect fuel .If st with
    | .error e => .error e
    | .ok st =>
      match parse_condition fuel st with
      | .error e => .error e
      | .ok (condition, st) =>
        match expect fuel .Then st with
        | .error e => .error e
        | .ok st =>
          let st := skip_newlines fuel st
          match parse_block_until fuel [.Elif, .Else, .Fi] st with
          | .error e => .error e
          | .ok (then_block, st) =>
            match parse_if_elifs fuel [] st with
            | .error e => .error e
            | .ok (elif_blocks, st) =>
              let elseStep : Except Err (Option ASTNode × PState) :=
                if st.current_token == .Else then
                  match advanceP fuel st with
                  | .error e => .error e
                  | .ok st =>
                    let st := skip_newlines fuel st
                    match parse_block_until fuel [.Fi] st with
                    | .error e => .error e
                    | .ok (b, st) => .ok (some b, st)
                else .ok (none, st)
              match elseStep with
              | .error e => .error e
              | .ok (else_block, st) =>
                match expect fuel .Fi st with
                | .error e => .error e
                | .ok st =>
                  .ok (.If condition then_block elif_blocks else_block, st)

/-- Elif loop of src/parser/parser.rs `ShellParser::parse_if`
(lines 136-143). -/
def parse_if_elifs : Nat → List (ASTNode × ASTNode) → PState →
    Except Err (List (ASTNode × ASTNode) × PState)
  | 0, _, _ => .error .outOfFuel
  | fuel+1, acc, st =>
    if st.current_token == .Elif then
      match advanceP fuel st with
      | .error e => .error e
      | .ok st =>
        match parse_condition fuel st with
        | .error e => .error e
        | .ok (elif_condition, st) =>
          match expect fuel .Then st with
          | .error e => .error e
          | .ok st =>
            let st := skip_newlines fuel st
            match parse_block_until fuel [.Elif, .Else, .Fi] st with
            | .error e => .error e
            | .ok (elif_block, st) =>
              parse_if_elifs fuel (acc ++ [(elif_condition, elif_block)]) st
    else .ok (acc, st)

/-- src/parser/parser.rs `ShellParser::parse_while`. -/
def parse_while : Nat → PState → Except Err (ASTNode × PState)
  | 0, _ => .error .outOfFuel
  | fuel+1, st =>
    match expect fuel .While st with
    | .error e => .error e
    | .ok st =>
      match parse_condition fuel st with
      | .error e => .error e
      | .ok (condition, st) =>
        match expect fuel .Do st with
        | .error e => .error e
        | .ok st =>
          let st := skip_newlines fuel st
          match parse_block_until fuel [.Done] st with
          | .error e => .error e
          | .ok (body, st) =>
            match expect fuel .Done st with
            | .error e => .error e
            | .ok st => .ok (.While condition body, st)

/-- src/parser/parser.rs `ShellParser::parse_until`. -/
def parse_until : Nat → PState → Except Err (ASTNode × PState)
  | 0, _ => .error .outOfFuel
  | fuel+1, st =>
    match expect fuel .Until st with
    | .error e => .error e
    | .ok st =>
      match parse_condition fuel st with
      | .error e => .error e
      | .ok (condition, st) =>
        match expect fuel .Do st with
        | .error e => .error e
        | .ok st =>
          let st := skip_newlines fuel st
          match parse_block_until fuel [.Done] st with
          | .error e => .error e
          | .ok (body, st) =>
            match expect fuel .Done st with
            | .error e => .error e
            | .ok st => .ok (.Until condition body, st)

/-- src/parser/parser.rs `ShellParser::parse_for` (list form only, per the
source's TODO). -/
def parse_for : Nat → PState → Except Err (ASTNode × PState)
  | 0, _ => .error .outOfFuel
  | fuel+1, st =>
    match expect fuel .For st with
    | .error e => .error e
    | .ok st =>
      match st.current_token with
      | .Word name =>
        (match advanceP fuel st with
         | .error e => .error e
         | .ok st =>
           match expect fuel .In st with
           | .error e => .error e
           | .ok st =>
             match parse_for_items fuel [] st with
             | .error e => .error e
             | .ok (items, st) =>
               let st := skip_newlines fuel st
               match expect fuel .Do st with
               | .error e => .error e
               | .ok st =>
                 let st := skip_newlines fuel st
                 match parse_block_until fuel [.Done] st with
                 | .error e => .error e
                 | .ok (body, st) =>
                   match expect fuel .Done st with
                   | .error e => .error e
                   | .ok st => .ok (.For name (.List items) body, st))
      | _ => .error .expectedVariableNameAfterFor

/-- src/parser/parser.rs `ShellParser::parse_function`. -/
def parse_function : Nat → PState → Except Err (ASTNode × PState)
  | 0, _ => .error .outOfFuel
  | fuel+1, st =>
    match expect fuel .Function st with
    | .error e => .error e
    | .ok st =>
      match st.current_token with
      | .Word n =>
        (match advanceP fuel st with
         | .error e => .error e
         | .ok st =>
           let parens : Except Err PState :=
             if st.current_token == .LeftParen then
               match advanceP fuel st with
               | .error e => .error e
               | .ok st => expect fuel .RightParen st
             else .ok st
           match parens with
           | .error e => .error e
           | .ok st =>
             let st := skip_newlines fuel st
             let bodyStep : Except Err (ASTNode × PState) :=
               if st.current_token == .LeftBrace then parse_block fuel st
               else parse_statement fuel st
             match bodyStep with
             | .error e => .error e
             | .ok (body, st) => .ok (.Function n body, st))
      | _ => .error .expectedFunctionName

/-- src/parser/parser.rs `ShellParser::parse_block`. -/
def parse_block : Nat → PState → Except Err (ASTNode × PState)
  | 0, _ => .error .outOfFuel
  | fuel+1, st =>
    match expect fuel .LeftBrace st with
    | .error e => .error e
    | .ok st =>
      let st := skip_newlines fuel st
      match parse_block_until fuel [.RightBrace] st with
      | .error e => .error e
      | .ok (block, st) =>
        match expect fuel .RightBrace st with
        | .error e => .error e
        | .ok st => .ok (block, st)

/-- src/parser/parser.rs `ShellParser::parse_subshell`. -/
def parse_subshell : Nat → PState → Except Err (ASTNode × PState)
  | 0, _ => .error .outOfFuel
  | fuel+1, st =>
    match expect fuel .LeftParen st with
    | .error e => .error e
    | .ok st =>
      let st := skip_newlines fuel st
      match parse_subshell_stmts fuel [] st with
      | .error e => .error e
      | .ok (statements, st) =>
        match expect fuel .RightParen st with
        | .error e => .error e
        | .ok st => .ok (.Subshell (.Block statements), st)

/-- Statement loop of src/parser/parser.rs `ShellParser::parse_subshell`
(lines 335-338). -/
def parse_subshell_stmts : Nat → List ASTNode → PState →
    Except Err (List ASTNode × PState)
  | 0, _, _ => .error .outOfFuel
  | fuel+1, acc, st =>
    if st.current_token != .RightParen && st.current_token != .Eof then
      match parse_statement fuel st with
      | .error e => .error e
      | .ok (stmt, st) =>
        parse_subshell_stmts fuel (acc ++ [stmt]) (skip_terminators fuel st)
    else .ok (acc, st)

/-- src/parser/parser.rs `ShellParser::parse_block_until` (wrapper plus
loop below). -/
def parse_block_until : Nat → List Token → PState → Except Err (ASTNode × PState)
  | 0, _, _ => .error .outOfFuel
  | fuel+1, terminators, st =>
    match parse_block_stmts fuel terminators [] st with
    | .error e => .error e
    | .ok (statements, st) => .ok (.Block statements, st)

/-- Statement loop of src/parser/parser.rs `ShellParser::parse_block_until`
(lines 517-525). -/
def parse_block_stmts : Nat → List Token → List ASTNode → PState →
    Except Err (List ASTNode × PState)
  | 0, _, _, _ => .error .outOfFuel
  | fuel+1, terminators, acc, st =>
    if !(terminators.contains st.current_token) && st.current_token != .Eof then
      if st.current_token == .Newline then
        match advanceP fuel st with
        | .error e => .error e
        | .ok st => parse_block_stmts fuel terminators acc st
      else
        match parse_statement fuel st with
        | .error e => .error e
        | .ok (stmt, st) =>
          parse_block_stmts fuel terminators (acc ++ [stmt]) (skip_terminators fuel st)
    else .ok (acc, st)

end

/-- Terminator loop of src/parser/parser.rs `ShellParser::parse_script`
(lines 92-94): unlike `skip_terminators`, errors propagate (`?`). -/
def parse_script_seps : Nat → PState → Except Err PState
  | 0, _ => .error .outOfFuel
  | fuel+1, st =>
    if st.current_token == .Semicolon || st.current_token == .Newline then
      match advanceP fuel st with
      | .error e => .error e
      | .ok st => parse_script_seps fuel st
    else .ok st

/-- Statement loop of src/parser/parser.rs `ShellParser::parse_script`. -/
def parse_script_stmts : Nat → List ASTNode → PState →
    Except Err (List ASTNode × PState)
  | 0, _, _ => .error .outOfFuel
  | fuel+1, acc, st =>
    if st.current_token != .Eof then
      if st.current_token == .Newline then
        match advanceP fuel st with
        | .error e => .error e
        | .ok st => parse_script_stmts fuel acc st
      else
        match parse_statement fuel st with
        | .error e => .error e
        | .ok (stmt, st) =>
          match parse_script_seps fuel st with
          | .error e => .error e
          | .ok st => parse_script_stmts fuel (acc ++ [stmt]) st
    else .ok (acc, st)

/-- src/parser/parser.rs `ShellParser::parse_script`. -/
def parse_script (fuel : Nat) (st : PState) : Except Err (ASTNode × PState) :=
  match fuel with
  | 0 => .error .outOfFuel
  | fuel+1 =>
    match parse_script_stmts fuel [] st with
    | .error e => .error e
    | .ok (statements, st) => .ok (.Script statements, st)

/-- src/parser/parser.rs `ShellParser::new`. -/
def ShellParser.new (fuel : Nat) (input : List Char) (dialect : ShellDialect) :
    Except Err PState :=
  let lexer := LexState.new input dialect
  match next_token fuel lexer with
  | .error e => .error e
  | .ok (current_token, lexer) =>
    .ok { lexer := lexer, current_token := current_token, input := input }

/-- src/parser/parser.rs `ShellParser::parse`. -/
def ShellParser.parse (fuel : Nat) (st : PState) : Except Err AST :=
  let metadata := extract_metadata st.input
  match parse_script fuel st with
  | .error e => .error e
  | .ok (root, _) => .ok { root := root, metadata := metadata }

/-- Construct a parser and run `parse` on it, the composition every caller
of the parser uses (e.g. the test helpers and `handle_source_command`). -/
def parseProgram (fuel : Nat) (input : String) (dialect : ShellDialect) :
    Except Err AST :=
  match ShellParser.new fuel input.data dialect with
  | .error e => .error e
  | .ok st => ShellParser.parse fuel st

end StatementDef

section ClassifierDef

/-- src/resolver/file_classifier.rs `FileClassification`. -/
inductive FileClassification
  | Static | Runtime | ContextDependent
deriving DecidableEq, Repr

/-- src/resolver/file_classifier.rs `UsagePattern` (default `Unknown`). -/
inductive UsagePattern
  | ReadOnly | WriteOnly | ReadWrite | Append | Monitor | Source | Unknown
deriving DecidableEq, Repr

/-- src/resolver/file_classifier.rs `FileUsage`. -/
structure FileUsage where
  read_count : Nat := 0
  write_count : Nat := 0
  append_count : Nat := 0
  in_loop : Bool := false
  in_condition : Bool := false
  is_sourced : Bool := false
  is_monitored : Bool := false
  commands : List String := []
deriving DecidableEq, Repr

/-- src/resolver/file_classifier.rs `FileContext` (defaults per the Rust
`Default` derive). -/
structure FileContext where
  is_local_to_script : Bool := false
  is_modified : Bool := false
  is_monitored : Bool := false
  is_sourced : Bool := false
  size : Option Nat := none
  usage_pattern : UsagePattern := .Unknown
deriving DecidableEq, Repr

/-- src/resolver/file_classifier.rs `FileInfo`.  Paths are modelled as
strings (`PathBuf` equality agrees with string equality on every path this
development constructs). -/
structure FileInfo where
  path : String
  classification : FileClassification
  reason : String
  size : Option Nat
deriving DecidableEq, Repr

/-- Rust `Path::file_name().and_then(to_str).unwrap_or("")`: the last
normal component (empty for root, `..`-final or empty paths). -/
def rustFileName (p : List Char) : List Char :=
  let comps := (lcSplit '/' p).filter (fun c => c ≠ [] && c ≠ ['.'])
  match comps.getLast? with
  | some c => if c = ['.', '.'] then [] else c
  | none => []

/-- `SYSTEM_PATH_REGEX`: anchored alternation of literal path roots. -/
def systemPathMatch (path_str : List Char) : Bool :=
  lcLeads "/proc/".data path_str || lcLeads "/sys/".data path_str ||
  lcLeads "/dev/".data path_str || lcLeads "/tmp/".data path_str ||
  lcLeads "/var/log/".data path_str || lcLeads "/run/".data path_str

/-- `CACHE_PATH_REGEX`: unanchored alternation of literal patterns. -/
def cachePathMatch (path_str : List Char) : Bool :=
  lcHas ".cache/".data path_str || lcHas "/cache/".data path_str ||
  lcHas ".local/tmp/".data path_str

/-- `PROCESS_FILE_REGEX`: anchored-at-the-end alternation of suffixes. -/
def processFileMatch (filename : List Char) : Bool :=
  lcEnds ".pid".data filename || lcEnds ".lock".data filename ||
  lcEnds ".sock".data filename

/-- `SENSITIVE_FILE_REGEX`. -/
def sensitiveFileMatch (filename : List Char) : Bool :=
  lcEnds ".key".data filename || lcEnds ".pem".data filename ||
  lcEnds ".password".data filename || lcEnds ".secret".data filename ||
  lcEnds ".token".data filename || lcEnds ".credentials".data filename

/-- `CONFIG_FILE_REGEX`. -/
def configFileMatch (filename : List Char) : Bool :=
  lcEnds ".conf".data filename || lcEnds ".config".data filename ||
  lcEnds ".cfg".data filename || lcEnds ".ini".data filename ||
  lcEnds ".toml".data filename || lcEnds ".yaml".data filename ||
  lcEnds ".yml".data filename || lcEnds ".json".data filename

/-- `DOC_FILE_REGEX`: anchored alternation of literal name stems. -/
def docFileMatch (filename : List Char) : Bool :=
  lcLeads "README".data filename || lcLeads "LICENSE".data filename ||
  lcLeads "COPYING".data filename || lcLeads "AUTHORS".data filename ||
  lcLeads "CHANGELOG".data filename || lcLeads "TODO".data filename ||
  lcLeads "INSTALL".data filename

/-- `DATA_FILE_REGEX`. -/
def dataFileMatch (filename : List Char) : Bool :=
  lcEnds ".json".data filename || lcEnds ".yaml".data filename ||
  lcEnds ".yml".data filename || lcEnds ".toml".data filename ||
  lcEnds ".xml".data filename || lcEnds ".csv".data filename ||
  lcEnds ".tsv".data filename

/-- src/resolver/file_classifier.rs `FileClassifier::is_always_runtime`. -/
def is_always_runtime (max_embed_size : Nat) (path_str filename : List Char)
    (context : FileContext) : Option String :=
  if systemPathMatch path_str then
    some "System path - always runtime"
  else if cachePathMatch path_str then
    some "Cache directory - always runtime"
  else if processFileMatch filename then
    some "Process file (pid/lock/sock) - always runtime"
  else if context.is_modified then
    some "File is modified by script - must be runtime"
  else if (match context.size with
           | some size => decide (size > max_embed_size)
           | none => false) then
    match context.size with
    | some size =>
      some ("File too large (" ++ toString (size / 1024 / 1024) ++ "MB > " ++
            toString (max_embed_size / 1024 / 1024) ++ "MB limit)")
    | none => none
  else if sensitiveFileMatch filename then
    some "Sensitive file (key/password) - never embed"
  else if context.is_monitored then
    some "File is monitored (tail -f/watch) - runtime access required"
  else if lcLeads "/etc/".data path_str && !context.is_local_to_script then
    some "System configuration in /etc - runtime access"
  else none

/-- src/resolver/file_classifier.rs `FileClassifier::is_always_static`. -/
def is_always_static (filename : List Char) (context : FileContext) :
    Option String :=
  if context.is_local_to_script && configFileMatch filename then
    some "Local configuration file - embed"
  else if docFileMatch filename then
    some "Documentation file - embed"
  else if dataFileMatch filename &&
      (match context.size with
       | some size => size < 1024 * 1024
       | none => false) then
    some "Small data file - embed"
  else if lcEnds ".md".data filename then
    some "Markdown documentation - embed"
  else if lcHas "template".data filename || lcEnds ".tmpl".data filename ||
      lcEnds ".tpl".data filename then
    some "Template file - embed"
  else if context.is_sourced && context.is_local_to_script then
    some "Local sourced script - embed"
  else none

/-- src/resolver/file_classifier.rs `FileClassifier::classify`
(`max_embed_size` is the one field of `FileClassifier`; `new` sets it to
50 MiB). -/
def classify (max_embed_size : Nat) (path : String) (context : FileContext) :
    FileInfo :=
  let path_str := path.data
  let filename := rustFileName path.data
  match is_always_runtime max_embed_size path_str filename context with
  | some reason =>
    { path := path, classification := .Runtime, reason := reason,
      size := context.size }
  | none =>
    match is_always_static filename context with
    | some reason =>
      { path := path, classification := .Static, reason := reason,
        size := context.size }
    | none =>
      { path := path, classification := .ContextDependent,
        reason := "Requires context analysis", size := context.size }

/-- `FileClassifier::new` / `Default`: the 50 MiB embedding limit. -/
def FileClassifier.default_max_embed_size : Nat := 50 * 1024 * 1024

end ClassifierDef

section TerminalDef

/-- src/resolver/terminal_detector.rs `TerminalRequirement`. -/
inductive TerminalRequirement
  | NoneReq | Interactive | TerminalFeatures | FullTUI
deriving DecidableEq, Repr

/-- src/resolver/terminal_detector.rs `TerminalFeature`.  The declared Rust
enum has ten variants; `analyze_command` and `determine_requirement`
additionally use `TerminalFeature::FullTUI`, so that variant is included
here for the detector functions to be expressible. -/
inductive TerminalFeature
  | ColorOutput | CursorControl | TerminalSize | RawMode | AlternateScreen
  | UserInput | PasswordInput | MenuSelection | ProgressBars | LiveOutput
  | FullTUI
deriving DecidableEq, Repr

/-- src/resolver/terminal_detector.rs `TerminalAnalysis`; the feature
`HashSet` is modelled as a duplicate-free list in insertion order. -/
structure TerminalAnalysis where
  requirement : TerminalRequirement
  features_used : List TerminalFeature
  interactive_commands : List String
  tui_indicators : List String
deriving DecidableEq, Repr

/-- `HashSet::insert`: add the feature unless already present. -/
def featInsert (f : TerminalFeature) (a : TerminalAnalysis) : TerminalAnalysis :=
  if a.features_used.contains f then a
  else { a with features_used := a.features_used ++ [f] }

/-- Does any argument equal the literal `-s` / `-f` style flag? (the
`args.iter().any(...)` checks of terminal_detector.rs). -/
def argsHasFlag (flag : String) (args : List ASTNode) : Bool :=
  args.any fun a =>
    match a with
    | .Str s _ => s = flag
    | _ => false

end TerminalDef

section TerminalAnalyze

/-- src/resolver/terminal_detector.rs `TerminalDetector::analyze_string_content`. -/
def analyze_string_content (content : List Char) (a0 : TerminalAnalysis) :
    TerminalAnalysis :=
  let a := a0
  let a :=
    if lcHas "\x1b[".data content || lcHas "\\033[".data content ||
       lcHas "\\e[".data content then
      let a := featInsert .ColorOutput a
      let a :=
        if lcHas "?1049h".data content || lcHas "?1049l".data content then
          featInsert .AlternateScreen a
        else a
      if lcHas "H".data content || lcHas "J".data content ||
         lcHas "K".data content then
        featInsert .CursorControl a
      else a
    else a
  let a :=
    if lcHas "$\x7bRED\x7d".data content || lcHas "$\x7bGREEN\x7d".data content ||
       lcHas "$\x7bBLUE\x7d".data content || lcHas "$\x7bNC\x7d".data content ||
       lcHas "\\033[0;3".data content then
      featInsert .ColorOutput a
    else a
  if lcHas "$COLUMNS".data content || lcHas "$LINES".data content ||
     lcHas "$(tput cols)".data content || lcHas "$(tput lines)".data content then
    featInsert .TerminalSize a
  else a

/-- Password-flag scan in the `read` arm of `analyze_command`. -/
def scanPasswordFlag (args : List ASTNode) (a : TerminalAnalysis) :
    TerminalAnalysis :=
  args.foldl
    (fun a arg =>
      match arg with
      | .Str s _ => if s = "-s" then featInsert .PasswordInput a else a
      | _ => a) a

/-- `-echo` scan in the `stty` arm of `analyze_command`. -/
def scanEchoFlag (args : List ASTNode) (a : TerminalAnalysis) :
    TerminalAnalysis :=
  args.foldl
    (fun a arg =>
      match arg with
      | .Str s _ => if s = "-echo" then featInsert .PasswordInput a else a
      | _ => a) a

/-- Feature work of src/resolver/terminal_detector.rs
`TerminalDetector::analyze_command` (the `match name` block, lines 139-233),
arms in source order including the `-f` guard on `watch`/`tail`. -/
def analyze_command_features (name : String) (args : List ASTNode)
    (a : TerminalAnalysis) : TerminalAnalysis :=
  if name = "read" then
    let a := featInsert .UserInput a
    let a := { a with interactive_commands := a.interactive_commands ++ ["read"] }
    scanPasswordFlag args a
  else if name = "select" then
    let a := featInsert .MenuSelection a
    { a with interactive_commands := a.interactive_commands ++ ["select"] }
  else if name = "tput" then
    let a := featInsert .CursorControl a
    let a := featInsert .ColorOutput a
    match args.head? with
    | some (.Str cmd _) =>
      if cmd = "cols" || cmd = "lines" then featInsert .TerminalSize a
      else if cmd = "cup" || cmd = "cuu" || cmd = "cud" || cmd = "cuf" ||
              cmd = "cub" then featInsert .CursorControl a
      else if cmd = "smcup" || cmd = "rmcup" then featInsert .AlternateScreen a
      else a
    | _ => a
  else if name = "colorize" || name = "lolcat" then
    featInsert .ColorOutput a
  else if name = "dialog" || name = "whiptail" || name = "zenity" then
    let a := featInsert .FullTUI a
    { a with tui_indicators := a.tui_indicators ++ [name] }
  else if name = "less" || name = "more" || name = "vim" || name = "vi" ||
          name = "nano" || name = "emacs" then
    let a := featInsert .FullTUI a
    { a with tui_indicators := a.tui_indicators ++ [name] }
  else if name = "pv" || name = "progress" then
    featInsert .ProgressBars a
  else if (name = "watch" || name = "tail") && argsHasFlag "-f" args then
    let a := featInsert .LiveOutput a
    { a with interactive_commands := a.interactive_commands ++ [name ++ " -f"] }
  else if name = "clear" || name = "reset" then
    featInsert .CursorControl a
  else if name = "stty" then
    let a := featInsert .RawMode a
    scanEchoFlag args a
  else a

mutual

/-- src/resolver/terminal_detector.rs `TerminalDetector::analyze_node`.  The
`ForItems::CStyle` fields are mandatory in src/parser/ast.rs, so that arm
analyzes all three components. -/
def analyze_node : Nat → ASTNode → TerminalAnalysis → TerminalAnalysis
  | 0, _, a => a
  | fuel+1, node, a =>
    match node with
    | .Script stmts => analyze_node_list fuel stmts a
    | .Block stmts => analyze_node_list fuel stmts a
    | .Command name args _ _ => analyze_command fuel name args a
    | .Pipeline commands => analyze_node_list fuel commands a
    | .Str content _ => analyze_string_content content.data a
    | .If condition then_block elif_blocks else_block =>
      let a := analyze_node fuel condition a
      let a := analyze_node fuel then_block a
      let a := analyze_pair_list fuel elif_blocks a
      (match else_block with
       | some b => analyze_node fuel b a
       | none => a)
    | .While condition body => analyze_node fuel body (analyze_node fuel condition a)
    | .Until condition body => analyze_node fuel body (analyze_node fuel condition a)
    | .For _ items body =>
      let a :=
        match items with
        | .List l => analyze_node_list fuel l a
        | .Command cmd => analyze_node fuel cmd a
        | .CStyle i c u => analyze_node fuel u (analyze_node fuel c (analyze_node fuel i a))
      analyze_node fuel body a
    | .Function _ body => analyze_node fuel body a
    | .CommandSubstitution cmd => analyze_node fuel cmd a
    | .Subshell cmd => analyze_node fuel cmd a
    | _ => a
termination_by structural fuel _n _a => fuel

/-- List traversal used by the `Script`/`Block`/`Pipeline` arms. -/
def analyze_node_list : Nat → List ASTNode → TerminalAnalysis → TerminalAnalysis
  | 0, _, a => a
  | _, [], a => a
  | fuel+1, n :: rest, a => analyze_node_list fuel rest (analyze_node fuel n a)
termination_by structural fuel _l _a => fuel

/-- Elif-pair traversal of the `If` arm. -/
def analyze_pair_list : Nat → List (ASTNode × ASTNode) → TerminalAnalysis →
    TerminalAnalysis
  | 0, _, a => a
  | _, [], a => a
  | fuel+1, (c, b) :: rest, a =>
    analyze_pair_list fuel rest (analyze_node fuel b (analyze_node fuel c a))
termination_by structural fuel _l _a => fuel

/-- src/resolver/terminal_detector.rs `TerminalDetector::analyze_command`:
feature work, then recursion into every argument. -/
def analyze_command : Nat → String → List ASTNode → TerminalAnalysis →
    TerminalAnalysis
  | 0, _, _, a => a
  | fuel+1, name, args, a =>
    analyze_node_list fuel args (analyze_command_features name args a)
termination_by structural fuel _s _a _x => fuel

end

/-- src/resolver/terminal_detector.rs
`TerminalDetector::determine_requirement`. -/
def determine_requirement (a : TerminalAnalysis) : TerminalRequirement :=
  if a.features_used.contains .FullTUI || !a.tui_indicators.isEmpty then
    .FullTUI
  else if a.features_used.contains .UserInput ||
          a.features_used.contains .MenuSelection ||
          a.features_used.contains .PasswordInput ||
          a.features_used.contains .LiveOutput then
    .Interactive
  else if a.features_used.contains .ColorOutput ||
          a.features_used.contains .CursorControl ||
          a.features_used.contains .TerminalSize then
    .TerminalFeatures
  else .NoneReq

/-- src/resolver/terminal_detector.rs `TerminalDetector::analyze`. -/
def TerminalDetector.analyze (fuel : Nat) (ast : AST) : TerminalAnalysis :=
  let analysis : TerminalAnalysis :=
    { requirement := .NoneReq, features_used := [], interactive_commands := [],
      tui_indicators := [] }
  let analysis := analyze_node fuel ast.root analysis
  { analysis with requirement := determine_requirement analysis }

end TerminalAnalyze

section RegexDef

/-!
Executable forms of the two regexes of src/resolver/dependency_detector.rs
that `resolve` actually evaluates, with the regex crate's leftmost-first,
greedy, non-overlapping match semantics specialised to these patterns.
-/

/-- The segment class of `FILE_PATH_REGEX`: any character other than `/`,
whitespace, double quote, single quote, backquote and parentheses. -/
def pathSegChar (c : Char) : Bool :=
  !(c = '/' || rustIsWhitespace c || c = '"' || c = '\'' || c = bq ||
    c = '(' || c = ')')

/-- The delimiter class of `FILE_PATH_REGEX`'s left context: whitespace,
quotes, backquote or an opening parenthesis. -/
def pathDelimChar (c : Char) : Bool :=
  rustIsWhitespace c || c = '"' || c = '\'' || c = bq || c = '('

/-- Greedy tail loop shared by the three path alternatives: a maximal
sequence of slash-separated non-empty segments. -/
def absTail : Nat → List Char → (List Char × List Char)
  | 0, l => ([], l)
  | fuel+1, l =>
    match l with
    | '/' :: rest =>
      let seg := rest.takeWhile pathSegChar
      let rest1 := rest.dropWhile pathSegChar
      if seg = [] then ([], l)
      else
        let (more, rest2) := absTail fuel rest1
        ('/' :: (seg ++ more), rest2)
    | _ => ([], l)

/-- First alternative of the capture group: an absolute path, slash then
segments then an optional trailing slash. -/
def altAbs (fuel : Nat) (l : List Char) : Option (List Char × List Char) :=
  match l with
  | '/' :: rest =>
    let seg := rest.takeWhile pathSegChar
    let rest1 := rest.dropWhile pathSegChar
    if seg = [] then none
    else
      let (more, rest2) := absTail fuel rest1
      match rest2 with
      | '/' :: rest3 => some ('/' :: (seg ++ more) ++ ['/'], rest3)
      | _ => some ('/' :: (seg ++ more), rest2)
  | _ => none

/-- Second alternative: a `./`-rooted path. -/
def altDot (fuel : Nat) (l : List Char) : Option (List Char × List Char) :=
  match l with
  | '.' :: '/' :: rest =>
    let seg := rest.takeWhile pathSegChar
    let rest1 := rest.dropWhile pathSegChar
    if seg = [] then none
    else
      let (more, rest2) := absTail fuel rest1
      match rest2 with
      | '/' :: rest3 => some ('.' :: '/' :: (seg ++ more) ++ ['/'], rest3)
      | _ => some ('.' :: '/' :: (seg ++ more), rest2)
  | _ => none

/-- Third alternative: a `..`-rooted path with at least one segment. -/
def altDotDot (fuel : Nat) (l : List Char) : Option (List Char × List Char) :=
  match l with
  | '.' :: '.' :: '/' :: rest =>
    let seg := rest.takeWhile pathSegChar
    let rest1 := rest.dropWhile pathSegChar
    if seg = [] then none
    else
      let (more, rest2) := absTail fuel rest1
      match rest2 with
      | '/' :: rest3 => some ('.' :: '.' :: '/' :: (seg ++ more) ++ ['/'], rest3)
      | _ => some ('.' :: '.' :: '/' :: (seg ++ more), rest2)
  | _ => none

/-- The capture group of `FILE_PATH_REGEX`: the three alternatives in
pattern order. -/
def tryPathGroup (fuel : Nat) (l : List Char) : Option (List Char × List Char) :=
  match altAbs fuel l with
  | some r => some r
  | none =>
    match altDot fuel l with
    | some r => some r
    | none => altDotDot fuel l

/-- `FILE_PATH_REGEX.captures_iter`: scan left to right; a match needs the
string start or a delimiter character immediately before the captured
group; matches do not overlap. -/
def pathScan : Nat → Bool → List Char → List (List Char)
  | 0, _, _ => []
  | fuel+1, isStart, l =>
    match (if isStart then tryPathGroup fuel l else none) with
    | some (cap, rest) => cap :: pathScan fuel false rest
    | none =>
      match l with
      | [] => []
      | c :: rest =>
        if pathDelimChar c then
          match tryPathGroup fuel rest with
          | some (cap, rest2) => cap :: pathScan fuel false rest2
          | none => pathScan fuel false rest
        else pathScan fuel false rest

/-- The body class of `URL_REGEX`: everything but whitespace and the
excluded punctuation. -/
def urlChar (c : Char) : Bool :=
  !(rustIsWhitespace c || c = '<' || c = '>' || c = '"' || c = lbrace ||
    c = rbrace || c = '|' || c = '\\' || c = '^' || c = bq || c = '[' ||
    c = ']')

/-- One `URL_REGEX` match attempt at the current position. -/
def tryUrl (l : List Char) : Option (List Char × List Char) :=
  let k : Option Nat :=
    if lcLeads "https://".data l then some 8
    else if lcLeads "http://".data l then some 7
    else none
  match k with
  | some k =>
    let rest := l.drop k
    let body := rest.takeWhile urlChar
    let rest2 := rest.dropWhile urlChar
    if body = [] then none else some (l.take k ++ body, rest2)
  | none => none

/-- `URL_REGEX.find_iter`: leftmost, non-overlapping matches. -/
def urlScan : Nat → List Char → List (List Char)
  | 0, _ => []
  | fuel+1, l =>
    match tryUrl l with
    | some (m, rest) => m :: urlScan fuel rest
    | none =>
      match l with
      | [] => []
      | _ :: rest => urlScan fuel rest

end RegexDef

section ResolverDef

/-- src/resolver/dependency_detector.rs `DependencyType`. -/
inductive DependencyType
  | SourceFile | DataFile | BinaryCommand | NetworkResource | Directory
  | ConfigFile
deriving DecidableEq, Repr

/-- src/resolver/dependency_detector.rs `Dependency` (paths as strings). -/
structure Dependency where
  path : String
  dep_type : DependencyType
  usage : FileUsage
  line_numbers : List Nat
deriving DecidableEq, Repr

/-- src/resolver/dependency_detector.rs `DependencyResolver`.  The
`dependencies` `HashMap` is an insertion-ordered association list, the
`visited_sources` `HashSet` a list; `max_embed_size` is the embedded
`FileClassifier`'s one field. -/
structure Resolver where
  max_embed_size : Nat
  script_dir : String
  dependencies : List (String × Dependency)
  visited_sources : List String
  max_source_depth : Nat
deriving Repr

/-- The file system seen by `handle_source_command`: a path either does not
exist, exists but `read_to_string` fails, or reads to some content. -/
inductive FSEntry
  | absent
  | unreadable
  | readable (content : String)

/-- Abstract file system: one entry per path. -/
def FS := String → FSEntry

/-- Rust `Path::parent().unwrap_or(Path::new("."))` as used by
`DependencyResolver::new`, modelled for the non-root paths this
development uses. -/
def rustParent (p : String) : String :=
  if p = "" || p = "/" then "."
  else
    let rev := p.data.reverse
    match rev.dropWhile (· ≠ '/') with
    | [] => ""
    | ['/'] => "/"
    | _ :: rest => String.mk rest.reverse

/-- src/resolver/dependency_detector.rs `DependencyResolver::new`. -/
def DependencyResolver.new (script_path : String) : Resolver :=
  { max_embed_size := FileClassifier.default_max_embed_size,
    script_dir := rustParent script_path,
    dependencies := [],
    visited_sources := [],
    max_source_depth := 15 }

/-- src/resolver/dependency_detector.rs `DependencyResolver::resolve_path`:
absolute paths unchanged, otherwise joined to the script directory
(`Path::join` inserts a separator; joining onto the empty path yields the
path itself). -/
def resolve_path (r : Resolver) (path : String) : String :=
  if lcLeads "/".data path.data then path
  else if r.script_dir = "" then path
  else r.script_dir ++ "/" ++ path

/-- The `and_modify` closure of `DependencyResolver::add_dependency`: sum
the usage counts, OR the flags, extend the line numbers; `path` and
`dep_type` are untouched. -/
def mergeDependency (d : Dependency) (usage : FileUsage) (line_numbers : List Nat) :
    Dependency :=
  { d with
    usage :=
      { d.usage with
        read_count := d.usage.read_count + usage.read_count,
        write_count := d.usage.write_count + usage.write_count,
        append_count := d.usage.append_count + usage.append_count,
        in_loop := d.usage.in_loop || usage.in_loop,
        in_condition := d.usage.in_condition || usage.in_condition,
        is_sourced := d.usage.is_sourced || usage.is_sourced,
        is_monitored := d.usage.is_monitored || usage.is_monitored },
    line_numbers := d.line_numbers ++ line_numbers }

/-- `dependencies.entry(path).and_modify(merge).or_insert(new)` on the
association-list model of the `HashMap`. -/
def depsUpsert (path : String) (dep_type : DependencyType) (usage : FileUsage)
    (line_numbers : List Nat) :
    List (String × Dependency) → List (String × Dependency)
  | [] => [(path, { path := path, dep_type := dep_type, usage := usage,
                    line_numbers := line_numbers })]
  | (k, d) :: rest =>
    if k = path then (k, mergeDependency d usage line_numbers) :: rest
    else (k, d) :: depsUpsert path dep_type usage line_numbers rest

/-- src/resolver/dependency_detector.rs `DependencyResolver::add_dependency`. -/
def add_dependency (path : String) (dep_type : DependencyType)
    (usage : FileUsage) (line_numbers : List Nat) (r : Resolver) : Resolver :=
  { r with dependencies := depsUpsert path dep_type usage line_numbers r.dependencies }

/-- src/resolver/dependency_detector.rs `DependencyResolver::add_file_dependency`
(infallible in the source, hence pure here). -/
def add_file_dependency (path : String) (usage : FileUsage) (r : Resolver) :
    Resolver :=
  let resolved_path := resolve_path r path
  let dep_type : DependencyType :=
    if lcEnds ".conf".data path.data || lcEnds ".config".data path.data then
      .ConfigFile
    else .DataFile
  add_dependency resolved_path dep_type usage [] r

/-- src/resolver/dependency_detector.rs free function `is_shell_builtin`. -/
def is_shell_builtin (command : String) : Bool :=
  command = "echo" || command = "printf" || command = "read" ||
  command = "cd" || command = "pwd" || command = "exit" ||
  command = "source" || command = "." || command = "exec" ||
  command = "eval" || command = "export" || command = "unset" ||
  command = "set" || command = "shift" || command = "return" ||
  command = "break" || command = "continue" || command = "trap" ||
  command = "wait" || command = "jobs" || command = "fg" ||
  command = "bg" || command = "kill" || command = "test" ||
  command = "[" || command = "[[" || command = "true" ||
  command = "false" || command = ":" || command = "alias" ||
  command = "unalias" || command = "type" || command = "which" ||
  command = "command" || command = "builtin" || command = "declare" ||
  command = "typeset" || command = "local" || command = "readonly" ||
  command = "let" || command = "history" || command = "getopts" ||
  command = "hash" || command = "help" || command = "logout" ||
  command = "times" || command = "ulimit" || command = "umask"

/-- src/resolver/dependency_detector.rs
`DependencyResolver::analyze_string_content`: path-pattern captures with the
glob-character guard, then URL matches. -/
def analyze_string_content_dep (content : List Char) (r : Resolver) : Resolver :=
  let caps := pathScan (content.length + 1) true content
  let r := caps.foldl
    (fun r path =>
      if lcHasChar '/' path && !lcHasChar '*' path && !lcHasChar '?' path then
        add_file_dependency (String.mk path) {} r
      else r) r
  let urls := urlScan (content.length + 1) content
  urls.foldl (fun r url => add_dependency (String.mk url) .NetworkResource {} [] r) r

/-- src/resolver/dependency_detector.rs
`DependencyResolver::analyze_network_command`. -/
def analyze_network_command (args : List ASTNode) (r : Resolver) : Resolver :=
  args.foldl
    (fun r arg =>
      match arg with
      | .Str content _ =>
        if urlScan (content.data.length + 1) content.data ≠ [] then
          add_dependency content .NetworkResource {} [] r
        else r
      | _ => r) r

/-- The `cat/less/more/head/tail` argument loop of `analyze_command`
(src/resolver/dependency_detector.rs lines 185-198). -/
def catArgsLoop (name : String) (args : List ASTNode) (r : Resolver) : Resolver :=
  args.foldl
    (fun r arg =>
      match arg with
      | .Str path _ =>
        let usage : FileUsage := { read_count := 1 }
        let usage :=
          if name = "tail" && argsHasFlag "-f" args then
            { usage with is_monitored := true }
          else usage
        add_file_dependency path usage r
      | _ => r) r

/-- The `cp/mv` source-argument loop (all but the last argument). -/
def cpArgsLoop (args : List ASTNode) (r : Resolver) : Resolver :=
  (args.take (args.length - 1)).foldl
    (fun r arg =>
      match arg with
      | .Str path _ => add_file_dependency path { read_count := 1 } r
      | _ => r) r

/-- The `rm/unlink` argument loop (deletion counted as a write). -/
def rmArgsLoop (args : List ASTNode) (r : Resolver) : Resolver :=
  args.foldl
    (fun r arg =>
      match arg with
      | .Str path _ => add_file_dependency path { write_count := 1 } r
      | _ => r) r

/-- The `mkdir` argument loop: records `Directory` dependencies on the raw
(unresolved) paths. -/
def mkdirArgsLoop (args : List ASTNode) (r : Resolver) : Resolver :=
  args.foldl
    (fun r arg =>
      match arg with
      | .Str path _ => add_dependency path .Directory {} [] r
      | _ => r) r

end ResolverDef

section ResolverWalk

mutual

/-- src/resolver/dependency_detector.rs
`DependencyResolver::analyze_ast_node`: depth guard first, then structural
recursion over every control-flow shape. -/
def analyze_ast_node (fs : FS) : Nat → ASTNode → Nat → Resolver → Except Err Resolver
  | 0, _, _, _ => .error .outOfFuel
  | fuel+1, node, depth, r =>
    if depth > r.max_source_depth then .error .maxSourceDepthExceeded
    else
      match node with
      | .Script statements => analyze_dep_list fs fuel statements depth r
      | .Block statements => analyze_dep_list fs fuel statements depth r
      | .Command name args _ _ => analyze_command_dep fs fuel name args depth r
      | .Pipeline commands => analyze_dep_list fs fuel commands depth r
      | .If condition then_block elif_blocks else_block =>
        (match analyze_ast_node fs fuel condition depth r with
         | .error e => .error e
         | .ok r =>
           match analyze_ast_node fs fuel then_block depth r with
           | .error e => .error e
           | .ok r =>
             match analyze_dep_pairs fs fuel elif_blocks depth r with
             | .error e => .error e
             | .ok r =>
               match else_block with
               | some block => analyze_ast_node fs fuel block depth r
               | none => .ok r)
      | .While condition body =>
        (match analyze_ast_node fs fuel condition depth r with
         | .error e => .error e
         | .ok r => analyze_ast_node fs fuel body depth r)
      | .Until condition body =>
        (match analyze_ast_node fs fuel condition depth r with
         | .error e => .error e
         | .ok r => analyze_ast_node fs fuel body depth r)
      | .For _ items body =>
        (match
           (match items with
            | .List l => analyze_dep_list fs fuel l depth r
            | .Command cmd => analyze_ast_node fs fuel cmd depth r
            | .CStyle init condition update =>
              match analyze_ast_node fs fuel init depth r with
              | .error e => .error e
              | .ok r =>
                match analyze_ast_node fs fuel condition depth r with
                | .error e => .error e
                | .ok r => analyze_ast_node fs fuel update depth r)
         with
         | .error e => .error e
         | .ok r => analyze_ast_node fs fuel body depth r)
      | .CaseNode expr cases =>
        (match analyze_ast_node fs fuel expr depth r with
         | .error e => .error e
         | .ok r => analyze_dep_cases fs fuel cases depth r)
      | .Function _ body => analyze_ast_node fs fuel body depth r
      | .CommandSubstitution cmd => analyze_ast_node fs fuel cmd depth r
      | .Subshell cmd => analyze_ast_node fs fuel cmd depth r
      | .Str content _ => .ok (analyze_string_content_dep content.data r)
      | _ => .ok r
termination_by structural fuel _n _d _r => fuel

/-- Statement-list traversal of `analyze_ast_node`. -/
def analyze_dep_list (fs : FS) : Nat → List ASTNode → Nat → Resolver → Except Err Resolver
  | 0, _, _, _ => .error .outOfFuel
  | _+1, [], _, r => .ok r
  | fuel+1, node :: rest, depth, r =>
    match analyze_ast_node fs fuel node depth r with
    | .error e => .error e
    | .ok r => analyze_dep_list fs fuel rest depth r
termination_by structural fuel _l _d _r => fuel

/-- Elif-pair traversal of the `If` arm of `analyze_ast_node`. -/
def analyze_dep_pairs (fs : FS) : Nat → List (ASTNode × ASTNode) → Nat → Resolver →
    Except Err Resolver
  | 0, _, _, _ => .error .outOfFuel
  | _+1, [], _, r => .ok r
  | fuel+1, (cond, block) :: rest, depth, r =>
    match analyze_ast_node fs fuel cond depth r with
    | .error e => .error e
    | .ok r =>
      match analyze_ast_node fs fuel block depth r with
      | .error e => .error e
      | .ok r => analyze_dep_pairs fs fuel rest depth r
termination_by structural fuel _l _d _r => fuel

/-- Case-arm traversal of the `Case` arm of `analyze_ast_node` (bodies
only, per the source). -/
def analyze_dep_cases (fs : FS) : Nat → List CaseItem → Nat → Resolver →
    Except Err Resolver
  | 0, _, _, _ => .error .outOfFuel
  | _+1, [], _, r => .ok r
  | fuel+1, .mk _ body :: rest, depth, r =>
    match analyze_ast_node fs fuel body depth r with
    | .error e => .error e
    | .ok r => analyze_dep_cases fs fuel rest depth r
termination_by structural fuel _l _d _r => fuel

/-- Argument traversal at the end of `analyze_command`. -/
def analyze_dep_args (fs : FS) : Nat → List ASTNode → Nat → Resolver →
    Except Err Resolver
  | 0, _, _, _ => .error .outOfFuel
  | _+1, [], _, r => .ok r
  | fuel+1, arg :: rest, depth, r =>
    match analyze_ast_node fs fuel arg depth r with
    | .error e => .error e
    | .ok r => analyze_dep_args fs fuel rest depth r
termination_by structural fuel _l _d _r => fuel

/-- src/resolver/dependency_detector.rs `DependencyResolver::analyze_command`:
the builtin check, the special-command dispatch, then recursion into every
argument. -/
def analyze_command_dep (fs : FS) : Nat → String → List ASTNode → Nat → Resolver →
    Except Err Resolver
  | 0, _, _, _, _ => .error .outOfFuel
  | fuel+1, name, args, depth, r =>
    let r := if !is_shell_builtin name then
        add_dependency name .BinaryCommand {} [] r
      else r
    let special : Except Err Resolver :=
      if name = "source" || name = "." then
        match args.head? with
        | some (.Str path _) => handle_source_command fs fuel path depth r
        | _ => .ok r
      else if name = "cat" || name = "less" || name = "more" ||
              name = "head" || name = "tail" then
        .ok (catArgsLoop name args r)
      else if (name = "echo" || name = "printf") && args.length ≥ 2 then
        .ok r
      else if (name = "cp" || name = "mv") && args.length ≥ 2 then
        .ok (cpArgsLoop args r)
      else if name = "rm" || name = "unlink" then
        .ok (rmArgsLoop args r)
      else if name = "mkdir" then
        .ok (mkdirArgsLoop args r)
      else if name = "curl" || name = "wget" then
        .ok (analyze_network_command args r)
      else if name = "git" then
        .ok (add_dependency "git" .BinaryCommand {} [] r)
      else .ok r
    match special with
    | .error e => .error e
    | .ok r => analyze_dep_args fs fuel args depth r
termination_by structural fuel _s _a _d _r => fuel

/-- src/resolver/dependency_detector.rs
`DependencyResolver::handle_source_command`: cycle guard, `SourceFile`
record, then — only if the file exists — read (`?` propagates a read
failure), dialect-sniff, parse (failures skipped) and recurse one level
deeper. -/
def handle_source_command (fs : FS) : Nat → String → Nat → Resolver →
    Except Err Resolver
  | 0, _, _, _ => .error .outOfFuel
  | fuel+1, path, depth, r =>
    let source_path := resolve_path r path
    if r.visited_sources.contains source_path then .ok r
    else
      let r := { r with visited_sources := r.visited_sources ++ [source_path] }
      let usage : FileUsage := { is_sourced := true }
      let r := add_dependency source_path .SourceFile usage [] r
      match fs source_path with
      | .absent => .ok r
      | .unreadable => .error .failedToReadSourcedFile
      | .readable content =>
        let dialect := ShellDialect.from_shebang
          (((lcLines content.data).head?).getD [])
        match parseProgram fuel content dialect with
        | .ok ast => analyze_ast_node fs fuel ast.root (depth + 1) r
        | .error _ => .ok r
termination_by structural fuel _p _d _r => fuel

end

/-- src/resolver/dependency_detector.rs `DependencyResolver::resolve`: walk
the tree from depth 0, append the metadata `@Dependency` entries, return
the collected map's values. -/
def resolve (fs : FS) (fuel : Nat) (ast : AST) (r : Resolver) :
    Except Err (List Dependency × Resolver) :=
  match analyze_ast_node fs fuel ast.root 0 r with
  | .error e => .error e
  | .ok r =>
    let r := ast.metadata.dependencies.foldl
      (fun r dep => add_dependency dep .BinaryCommand {} [] r) r
    .ok (r.dependencies.map (·.2), r)

end ResolverWalk

section PipeWf

/-!
Specification predicate for the pipeline-collapse invariant: an AST is
`wfNode` when every `Pipeline` node anywhere inside it has at least two
elements.
-/
mutual

/-- Every `Pipeline` subnode has at least 2 elements. -/
def wfNode : ASTNode → Bool
  | .Script stmts => wfList stmts
  | .Command _ args _ _ => wfList args
  | .Pipeline commands => decide (2 ≤ commands.length) && wfList commands
  | .If c t elifs e => wfNode c && wfNode t && wfPairs elifs && wfOpt e
  | .While c b => wfNode c && wfNode b
  | .Until c b => wfNode c && wfNode b
  | .For _ items b => wfItems items && wfNode b
  | .CaseNode e cases => wfNode e && wfCases cases
  | .Function _ b => wfNode b
  | .Assignment _ v _ _ _ => wfNode v
  | .ParameterExpansion _ ex => wfExp ex
  | .CommandSubstitution c => wfNode c
  | .ArithmeticExpansion c => wfNode c
  | .BinaryOp l _ r => wfNode l && wfNode r
  | .UnaryOp _ x => wfNode x
  | .Arr elems => wfList elems
  | .Return v => wfOpt v
  | .Exit v => wfOpt v
  | .Block stmts => wfList stmts
  | .Subshell b => wfNode b
  | _ => true

def wfList : List ASTNode → Bool
  | [] => true
  | n :: rest => wfNode n && wfList rest

def wfPairs : List (ASTNode × ASTNode) → Bool
  | [] => true
  | (c, b) :: rest => wfNode c && wfNode b && wfPairs rest

def wfOpt : Option ASTNode → Bool
  | none => true
  | some n => wfNode n

def wfItems : ForItems → Bool
  | .List l => wfList l
  | .Command c => wfNode c
  | .CStyle i c u => wfNode i && wfNode c && wfNode u

def wfCases : List CaseItem → Bool
  | [] => true
  | .mk _ b :: rest => wfNode b && wfCases rest

def wfExp : ExpansionType → Bool
  | .Default d => wfNode d
  | .Assign d => wfNode d
  | .Alternative d => wfNode d
  | .Substring o len => wfNode o && wfOpt len
  | _ => true

end

end PipeWf

section DepInvDef

/-- Association-list lookup on the dependency map (Rust
`HashMap::get`). -/
def depsLookup (k : String) : List (String × Dependency) → Option Dependency
  | [] => none
  | (k0, d) :: rest => if k0 = k then some d else depsLookup k rest

/-- Invariant of the dependency map: keys are pairwise distinct and every
record's `path` equals its key. -/
def DepInv (deps : List (String × Dependency)) : Prop :=
  (deps.map (·.1)).Nodup ∧ ∀ p ∈ deps, p.2.path = p.1

end DepInvDef

section ClaimFixtures

/-- First token of an input, for the lexer round-trip claims. -/
def lexFirstToken (fuel : Nat) (input : String) (dialect : ShellDialect) :
    Except Err Token :=
  match next_token fuel (LexState.new input.data dialect) with
  | .error e => .error e
  | .ok (t, _) => .ok t

/-- The empty file system: no path exists. -/
def fsAbsent : FS := fun _ => .absent

/-- A file system where `/u.sh` exists but cannot be read. -/
def fsUnreadableU : FS := fun p => if p = "/u.sh" then .unreadable else .absent

/-- A file system where `/u.sh` reads to `case`, a script the parser
rejects (`parse_case` is unimplemented). -/
def fsCaseU : FS := fun p => if p = "/u.sh" then .readable "case" else .absent

/-- AST of a script that sources `/u.sh` and then runs `gcc`. -/
def srcGccAST : AST :=
  { root := .Script [.Command "source" [.Str "/u.sh" .Unquoted] [] false,
                     .Command "gcc" [] [] false],
    metadata := {} }

/-- AST of a script that reads `/data/x` once (`cat`) and writes it once
(`rm`). -/
def catRmAST : AST :=
  { root := .Script [.Command "cat" [.Str "/data/x" .Unquoted] [] false,
                     .Command "rm" [.Str "/data/x" .Unquoted] [] false],
    metadata := {} }

/-- AST of a script that first reads `/lib/x.sh` (`cat`, recorded as
`DataFile`) and later sources the same path (`source`, which alone would
record `SourceFile`). -/
def catSourceAST : AST :=
  { root := .Script [.Command "cat" [.Str "/lib/x.sh" .Unquoted] [] false,
                     .Command "source" [.Str "/lib/x.sh" .Unquoted] [] false],
    metadata := {} }

/-- AST containing the single statement `read -s PASSWORD`. -/
def readPasswordAST : AST :=
  { root := .Script [.Command "read" [.Str "-s" .Unquoted, .Str "PASSWORD" .Unquoted]
                       [] false],
    metadata := {} }

/-- The AST that `a | b | c` parses to. -/
def pipe3AST : AST :=
  { root := .Script [.Pipeline [.Command "a" [] [] false, .Command "b" [] [] false,
                                .Command "c" [] [] false]],
    metadata := {} }

end ClaimFixtures

section DepInvLemmas

theorem mergeDependency_path (d : Dependency) (u : FileUsage) (ln : List Nat) :
    (mergeDependency d u ln).path = d.path := rfl

theorem mergeDependency_dep_type (d : Dependency) (u : FileUsage) (ln : List Nat) :
    (mergeDependency d u ln).dep_type = d.dep_type := rfl

theorem depsUpsert_keys (path : String) (t : DependencyType) (u : FileUsage)
    (ln : List Nat) :
    ∀ deps : List (String × Dependency),
      (depsUpsert path t u ln deps).map (·.1) =
        if path ∈ deps.map (·.1) then deps.map (·.1) else deps.map (·.1) ++ [path]
  | [] => by simp [depsUpsert]
  | (k, d) :: rest => by
    by_cases hk : k = path
    · subst hk
      simp [depsUpsert]
    · have ih := depsUpsert_keys path t u ln rest
      simp only [depsUpsert, if_neg hk, List.map_cons, ih]
      have hiff : (path ∈ k :: rest.map (·.1)) ↔ (path ∈ rest.map (·.1)) := by
        constructor
        · intro h
          rcases List.mem_cons.mp h with h | h
          · exact absurd h.symm hk
          · exact h
        · intro h
          exact List.mem_cons_of_mem _ h
      by_cases hmem : path ∈ rest.map (·.1)
      · simp [hmem, hiff]
      · simp [hmem, hiff]

theorem depsUpsert_pathEq (path : String) (t : DependencyType) (u : FileUsage)
    (ln : List Nat) :
    ∀ deps : List (String × Dependency),
      (∀ p ∈ deps, p.2.path = p.1) →
      ∀ p ∈ depsUpsert path t u ln deps, p.2.path = p.1
  | [], _, p, hp => by
    simp [depsUpsert] at hp
    subst hp
    rfl
  | (k, d) :: rest, h, p, hp => by
    by_cases hk : k = path
    · subst hk
      simp [depsUpsert] at hp
      rcases hp with hp | hp
      · subst hp
        simpa [mergeDependency_path] using h (k, d) (by simp)
      · exact h p (by simp [hp])
    · simp [depsUpsert, hk] at hp
      rcases hp with hp | hp
      · subst hp
        exact h (k, d) (by simp)
      · exact depsUpsert_pathEq path t u ln rest (fun q hq => h q (by simp [hq])) p hp

theorem depsUpsert_DepInv (path : String) (t : DependencyType) (u : FileUsage)
    (ln : List Nat) (deps : List (String × Dependency)) (h : DepInv deps) :
    DepInv (depsUpsert path t u ln deps) := by
  obtain ⟨hnd, hpe⟩ := h
  constructor
  · rw [depsUpsert_keys]
    by_cases hmem : path ∈ deps.map (·.1)
    · simpa [hmem] using hnd
    · simp only [hmem, if_false]
      refine List.Nodup.append hnd (List.nodup_singleton path) ?_
      intro x hx hx'
      simp only [List.mem_singleton] at hx'
      exact hmem (hx' ▸ hx)
  · exact depsUpsert_pathEq path t u ln deps hpe

theorem add_dependency_DepInv (path : String) (t : DependencyType)
    (u : FileUsage) (ln : List Nat) (r : Resolver) (h : DepInv r.dependencies) :
    DepInv (add_dependency path t u ln r).dependencies :=
  depsUpsert_DepInv path t u ln r.dependencies h

theorem add_file_dependency_DepInv (path : String) (u : FileUsage)
    (r : Resolver) (h : DepInv r.dependencies) :
    DepInv (add_file_dependency path u r).dependencies :=
  add_dependency_DepInv _ _ _ _ _ h

theorem foldl_DepInv {α : Type} (f : Resolver → α → Resolver)
    (hf : ∀ r a, DepInv r.dependencies → DepInv (f r a).dependencies) :
    ∀ (l : List α) (r : Resolver), DepInv r.dependencies →
      DepInv (l.foldl f r).dependencies
  | [], _, h => h
  | a :: rest, r, h => foldl_DepInv f hf rest (f r a) (hf r a h)

theorem analyze_string_content_dep_DepInv (content : List Char) (r : Resolver)
    (h : DepInv r.dependencies) :
    DepInv (analyze_string_content_dep content r).dependencies := by
  unfold analyze_string_content_dep
  refine foldl_DepInv _ (fun r u h => add_dependency_DepInv _ _ _ _ _ h) _ _ ?_
  refine foldl_DepInv _ (fun r p h => ?_) _ _ h
  dsimp only
  split
  · exact add_file_dependency_DepInv _ _ _ h
  · exact h

theorem analyze_network_command_DepInv (args : List ASTNode) (r : Resolver)
    (h : DepInv r.dependencies) :
    DepInv (analyze_network_command args r).dependencies := by
  unfold analyze_network_command
  refine foldl_DepInv _ (fun r a h => ?_) _ _ h
  dsimp only
  split
  · split
    · exact add_dependency_DepInv _ _ _ _ _ h
    · exact h
  · exact h

theorem catArgsLoop_DepInv (name : String) (args : List ASTNode) (r : Resolver)
    (h : DepInv r.dependencies) :
    DepInv (catArgsLoop name args r).dependencies := by
  unfold catArgsLoop
  refine foldl_DepInv _ (fun r a h => ?_) _ _ h
  dsimp only
  split
  · exact add_file_dependency_DepInv _ _ _ h
  · exact h

theorem cpArgsLoop_DepInv (args : List ASTNode) (r : Resolver)
    (h : DepInv r.dependencies) :
    DepInv (cpArgsLoop args r).dependencies := by
  unfold cpArgsLoop
  refine foldl_DepInv _ (fun r a h => ?_) _ _ h
  dsimp only
  split
  · exact add_file_dependency_DepInv _ _ _ h
  · exact h

theorem rmArgsLoop_DepInv (args : List ASTNode) (r : Resolver)
    (h : DepInv r.dependencies) :
    DepInv (rmArgsLoop args r).dependencies := by
  unfold rmArgsLoop
  refine foldl_DepInv _ (fun r a h => ?_) _ _ h
  dsimp only
  split
  · exact add_file_dependency_DepInv _ _ _ h
  · exact h

theorem mkdirArgsLoop_DepInv (args : List ASTNode) (r : Resolver)
    (h : DepInv r.dependencies) :
    DepInv (mkdirArgsLoop args r).dependencies := by
  unfold mkdirArgsLoop
  refine foldl_DepInv _ (fun r a h => ?_) _ _ h
  dsimp only
  split
  · exact add_dependency_DepInv _ _ _ _ _ h
  · exact h

end DepInvLemmas

section ResolverInvProof

theorem resolver_preserves_DepInv : ∀ fuel : Nat,
    (∀ fs node depth r r', analyze_ast_node fs fuel node depth r = .ok r' →
        DepInv r.dependencies → DepInv r'.dependencies) ∧
    (∀ fs l depth r r', analyze_dep_list fs fuel l depth r = .ok r' →
        DepInv r.dependencies → DepInv r'.dependencies) ∧
    (∀ fs l depth r r', analyze_dep_pairs fs fuel l depth r = .ok r' →
        DepInv r.dependencies → DepInv r'.dependencies) ∧
    (∀ fs l depth r r', analyze_dep_cases fs fuel l depth r = .ok r' →
        DepInv r.dependencies → DepInv r'.dependencies) ∧
    (∀ fs l depth r r', analyze_dep_args fs fuel l depth r = .ok r' →
        DepInv r.dependencies → DepInv r'.dependencies) ∧
    (∀ fs name args depth r r', analyze_command_dep fs fuel name args depth r = .ok r' →
        DepInv r.dependencies → DepInv r'.dependencies) ∧
    (∀ fs path depth r r', handle_source_command fs fuel path depth r = .ok r' →
        DepInv r.dependencies → DepInv r'.dependencies) := by
  intro fuel
  induction fuel with
  | zero =>
    refine ⟨?_, ?_, ?_, ?_, ?_, ?_, ?_⟩ <;>
      · intros
        rename_i h hv
        exact (Except.noConfusion h)
  | succ n ih =>
    obtain ⟨ihN, ihL, ihP, ihC, ihA, ihCmd, ihS⟩ := ih
    refine ⟨?_, ?_, ?_, ?_, ?_, ?_, ?_⟩
    · intro fs node depth r r' h hinv
      simp only [analyze_ast_node] at h
      split at h
      · exact (Except.noConfusion h)
      · split at h
        · exact ihL _ _ _ _ _ h hinv
        · exact ihL _ _ _ _ _ h hinv
        · exact ihCmd _ _ _ _ _ _ h hinv
        · exact ihL _ _ _ _ _ h hinv
        · split at h
          · exact (Except.noConfusion h)
          · rename_i r1 h1
            split at h
            · exact (Except.noConfusion h)
            · rename_i r2 h2
              split at h
              · exact (Except.noConfusion h)
              · rename_i r3 h3
                split at h
                · rename_i blk heq
                  exact ihN _ _ _ _ _ h
                    (ihP _ _ _ _ _ h3 (ihN _ _ _ _ _ h2 (ihN _ _ _ _ _ h1 hinv)))
                · exact Except.ok.inj h ▸
                    (ihP _ _ _ _ _ h3 (ihN _ _ _ _ _ h2 (ihN _ _ _ _ _ h1 hinv)))
        · split at h
          · exact (Except.noConfusion h)
          · rename_i r1 h1
            exact ihN _ _ _ _ _ h (ihN _ _ _ _ _ h1 hinv)
        · split at h
          · exact (Except.noConfusion h)
          · rename_i r1 h1
            exact ihN _ _ _ _ _ h (ihN _ _ _ _ _ h1 hinv)
        · split at h
          · exact (Except.noConfusion h)
          · rename_i r1 h1
            refine ihN _ _ _ _ _ h ?_
            split at h1
            · exact ihL _ _ _ _ _ h1 hinv
            · exact ihN _ _ _ _ _ h1 hinv
            · split at h1
              · exact (Except.noConfusion h1)
              · rename_i ra ha
                split at h1
                · exact (Except.noConfusion h1)
                · rename_i rb hb
                  exact ihN _ _ _ _ _ h1 (ihN _ _ _ _ _ hb (ihN _ _ _ _ _ ha hinv))
        · split at h
          · exact (Except.noConfusion h)
          · rename_i r1 h1
            exact ihC _ _ _ _ _ h (ihN _ _ _ _ _ h1 hinv)
        · exact ihN _ _ _ _ _ h hinv
        · exact ihN _ _ _ _ _ h hinv
        · exact ihN _ _ _ _ _ h hinv
        · exact Except.ok.inj h ▸ analyze_string_content_dep_DepInv _ _ hinv
        · exact Except.ok.inj h ▸ hinv
    · intro fs l depth r r' h hinv
      cases l with
      | nil =>
        simp only [analyze_dep_list] at h
        exact Except.ok.inj h ▸ hinv
      | cons x rest =>
        simp only [analyze_dep_list] at h
        split at h
        · exact (Except.noConfusion h)
        · rename_i r1 h1
          exact ihL _ _ _ _ _ h (ihN _ _ _ _ _ h1 hinv)
    · intro fs l depth r r' h hinv
      cases l with
      | nil =>
        simp only [analyze_dep_pairs] at h
        exact Except.ok.inj h ▸ hinv
      | cons x rest =>
        obtain ⟨c, b⟩ := x
        simp only [analyze_dep_pairs] at h
        split at h
        · exact (Except.noConfusion h)
        · rename_i r1 h1
          split at h
          · exact (Except.noConfusion h)
          · rename_i r2 h2
            exact ihP _ _ _ _ _ h (ihN _ _ _ _ _ h2 (ihN _ _ _ _ _ h1 hinv))
    · intro fs l depth r r' h hinv
      cases l with
      | nil =>
        simp only [analyze_dep_cases] at h
        exact Except.ok.inj h ▸ hinv
      | cons x rest =>
        obtain ⟨pats, b⟩ := x
        simp only [analyze_dep_cases] at h
        split at h
        · exact (Except.noConfusion h)
        · rename_i r1 h1
          exact ihC _ _ _ _ _ h (ihN _ _ _ _ _ h1 hinv)
    · intro fs l depth r r' h hinv
      cases l with
      | nil =>
        simp only [analyze_dep_args] at h
        exact Except.ok.inj h ▸ hinv
      | cons x rest =>
        simp only [analyze_dep_args] at h
        split at h
        · exact (Except.noConfusion h)
        · rename_i r1 h1
          exact ihA _ _ _ _ _ h (ihN _ _ _ _ _ h1 hinv)
    · intro fs name args depth r r' h hinv
      simp only [analyze_command_dep] at h
      have hinv1 : DepInv (if !is_shell_builtin name then
          add_dependency name .BinaryCommand {} [] r else r).dependencies := by
        split
        · exact add_dependency_DepInv _ _ _ _ _ hinv
        · exact hinv
      split at h
      · exact (Except.noConfusion h)
      · rename_i r1 h1
        refine ihA _ _ _ _ _ h ?_
        split at h1
        · split at h1
          · exact ihS _ _ _ _ _ h1 hinv1
          · exact Except.ok.inj h1 ▸ hinv1
        · split at h1
          · exact Except.ok.inj h1 ▸ catArgsLoop_DepInv _ _ _ hinv1
          · split at h1
            · exact Except.ok.inj h1 ▸ hinv1
            · split at h1
              · exact Except.ok.inj h1 ▸ cpArgsLoop_DepInv _ _ hinv1
              · split at h1
                · exact Except.ok.inj h1 ▸ rmArgsLoop_DepInv _ _ hinv1
                · split at h1
                  · exact Except.ok.inj h1 ▸ mkdirArgsLoop_DepInv _ _ hinv1
                  · split at h1
                    · exact Except.ok.inj h1 ▸ analyze_network_command_DepInv _ _ hinv1
                    · split at h1
                      · exact Except.ok.inj h1 ▸ add_dependency_DepInv _ _ _ _ _ hinv1
                      · exact Except.ok.inj h1 ▸ hinv1
    · intro fs path depth r r' h hinv
      simp only [handle_source_command] at h
      split at h
      · exact Except.ok.inj h ▸ hinv
      · have hinv2 : DepInv (add_dependency (resolve_path r path) .SourceFile
            { is_sourced := true } []
            { r with visited_sources := r.visited_sources ++ [resolve_path r path] }).dependencies :=
          add_dependency_DepInv _ _ _ _ _ hinv
        split at h
        · exact Except.ok.inj h ▸ hinv2
        · exact (Except.noConfusion h)
        · split at h
          · exact ihN _ _ _ _ _ h hinv2
          · exact Except.ok.inj h ▸ hinv2

theorem map_path_eq_keys : ∀ deps : List (String × Dependency),
    (∀ p ∈ deps, p.2.path = p.1) →
    deps.map (fun p => p.2.path) = deps.map (·.1)
  | [], _ => rfl
  | p :: rest, h => by
    simp only [List.map_cons]
    rw [map_path_eq_keys rest (fun q hq => h q (List.mem_cons_of_mem _ hq)),
        h p (List.mem_cons_self _ _)]

/-- `resolve`, started from a fresh resolver, returns dependency lists whose
paths are pairwise distinct. -/
theorem resolve_paths_nodup (fs : FS) (fuel : Nat) (ast : AST)
    (script_path : String) (p : List Dependency × Resolver)
    (h : resolve fs fuel ast (DependencyResolver.new script_path) = .ok p) :
    (p.1.map (·.path)).Nodup := by
  unfold resolve at h
  split at h
  · exact (Except.noConfusion h)
  · rename_i r1 h1
    have hinv : DepInv r1.dependencies :=
      (resolver_preserves_DepInv fuel).1 _ _ _ _ _ h1
        ⟨by simp [DependencyResolver.new], by simp [DependencyResolver.new]⟩
    have hinv2 := foldl_DepInv
      (fun r dep => add_dependency dep .BinaryCommand {} [] r)
      (fun r a hh => add_dependency_DepInv _ _ _ _ _ hh)
      ast.metadata.dependencies _ hinv
    obtain rfl := Except.ok.inj h
    simp only [List.map_map]
    have : (fun x => Dependency.path (Prod.snd x)) = (fun p : String × Dependency => p.2.path) := rfl
    rw [show ((Dependency.path ∘ Prod.snd) :  String × Dependency → String) = fun p : String × Dependency => p.2.path from rfl]
    rw [map_path_eq_keys _ hinv2.2]
    exact hinv2.1

end ResolverInvProof

section LookupLemmas

theorem depsLookup_upsert_self (path : String) (t : DependencyType)
    (u : FileUsage) (ln : List Nat) :
    ∀ deps : List (String × Dependency), ∀ d : Dependency,
      depsLookup path deps = some d →
      depsLookup path (depsUpsert path t u ln deps) = some (mergeDependency d u ln)
  | [], d, h => by simp [depsLookup] at h
  | (k, d0) :: rest, d, h => by
    by_cases hk : k = path
    · subst hk
      simp only [depsLookup, if_pos rfl] at h
      obtain rfl := Option.some.inj h
      simp [depsUpsert, depsLookup]
    · simp only [depsLookup, if_neg hk] at h
      simp only [depsUpsert, if_neg hk, depsLookup]
      exact depsLookup_upsert_self path t u ln rest d h

theorem depsLookup_upsert_other (k path : String) (t : DependencyType)
    (u : FileUsage) (ln : List Nat) (hne : k ≠ path) :
    ∀ deps : List (String × Dependency),
      depsLookup k (depsUpsert path t u ln deps) = depsLookup k deps
  | [] => by
    simp only [depsUpsert, depsLookup]
    rw [if_neg (fun h => hne h.symm)]
  | (k0, d0) :: rest => by
    by_cases hk : k0 = path
    · subst hk
      simp only [depsUpsert, if_pos rfl, depsLookup]
      rw [if_neg (fun hh => hne hh.symm), if_neg (fun hh => hne hh.symm)]
    · simp only [depsUpsert, if_neg hk, depsLookup]
      by_cases hk0 : k0 = k
      · simp [hk0]
      · rw [if_neg hk0, if_neg hk0]
        exact depsLookup_upsert_other k path t u ln hne rest

end LookupLemmas

section ParserWfLemmas

theorem wfList_append : ∀ l1 l2 : List ASTNode,
    wfList (l1 ++ l2) = (wfList l1 && wfList l2)
  | [], l2 => by simp [wfList]
  | a :: rest, l2 => by
    simp [wfList, wfList_append rest l2, Bool.and_assoc]

theorem wfPairs_append : ∀ l1 l2 : List (ASTNode × ASTNode),
    wfPairs (l1 ++ l2) = (wfPairs l1 && wfPairs l2)
  | [], l2 => by simp [wfPairs]
  | (c, b) :: rest, l2 => by
    simp [wfPairs, wfPairs_append rest l2, Bool.and_assoc]


theorem wf_parse_variable_or_expansion (fuel : Nat) (st : PState)
    (p : ASTNode × PState) (h : parse_variable_or_expansion fuel st = .ok p) :
    wfNode p.1 = true := by
  unfold parse_variable_or_expansion at h
  split at h
  · split at h
    · exact (Except.noConfusion h)
    · obtain rfl := Except.ok.inj h
      simp [wfNode]
  · exact (Except.noConfusion h)
  · exact (Except.noConfusion h)
  · exact (Except.noConfusion h)

theorem wf_parse_word : ∀ (fuel : Nat) (st : PState) (p : ASTNode × PState),
    parse_word fuel st = .ok p → wfNode p.1 = true := by
  intro fuel st p h
  match fuel with
  | 0 => exact (Except.noConfusion h)
  | fuel+1 =>
    simp only [parse_word] at h
    split at h
    · -- Word
      split at h
      · exact (Except.noConfusion h)
      · obtain rfl := Except.ok.inj h
        simp [wfNode, wfList]
    · -- Str: inner match on quote type
      split at h
      · split at h
        · exact (Except.noConfusion h)
        · obtain rfl := Except.ok.inj h
          simp [wfNode]
      · split at h
        · exact (Except.noConfusion h)
        · obtain rfl := Except.ok.inj h
          simp [wfNode]
      · split at h
        · exact (Except.noConfusion h)
        · obtain rfl := Except.ok.inj h
          simp [wfNode]
      · split at h
        · exact (Except.noConfusion h)
        · obtain rfl := Except.ok.inj h
          simp [wfNode]
    · -- Number
      split at h
      · exact (Except.noConfusion h)
      · obtain rfl := Except.ok.inj h
        simp [wfNode]
    · -- Dollar
      split at h
      · exact (Except.noConfusion h)
      · exact wf_parse_variable_or_expansion _ _ _ h
    · exact (Except.noConfusion h)

theorem wf_parse_assignment_or_word (fuel : Nat) (st : PState)
    (p : ASTNode × PState) (h : parse_assignment_or_word fuel st = .ok p) :
    wfNode p.1 = true :=
  wf_parse_word _ _ _ h

theorem wf_parse_assignment (fuel : Nat) (st : PState) (p : ASTNode × PState)
    (h : parse_assignment fuel st = .ok p) : wfNode p.1 = true := by
  match fuel with
  | 0 => exact (Except.noConfusion h)
  | fuel+1 =>
    simp only [parse_assignment] at h
    split at h
    · split at h
      · exact (Except.noConfusion h)
      · split at h
        · exact (Except.noConfusion h)
        · rename_i st2 h2
          split at h
          · exact (Except.noConfusion h)
          · rename_i value st3 hq
            obtain rfl := Except.ok.inj h
            have hv : wfNode value = true := by simpa using wf_parse_word _ _ _ hq
            simp [wfNode, hv]
    · exact (Except.noConfusion h)

theorem wf_parse_command_args : ∀ (fuel : Nat) (args : List ASTNode) (st : PState)
    (p : List ASTNode × PState), parse_command_args fuel args st = .ok p →
    wfList args = true → wfList p.1 = true := by
  intro fuel
  induction fuel with
  | zero => intro args st p h _; exact (Except.noConfusion h)
  | succ n ih =>
    intro args st p h hargs
    simp only [parse_command_args] at h
    split at h
    · obtain rfl := Except.ok.inj h
      exact hargs
    · split at h
      · split at h
        · exact (Except.noConfusion h)
        · split at h
          · exact (Except.noConfusion h)
          · exact ih _ _ _ h hargs
      · split at h
        · exact (Except.noConfusion h)
        · rename_i w st2 hq
          have hw : wfNode w = true := by simpa using wf_parse_word _ _ _ hq
          exact ih _ _ _ h (by simp [wfList_append, hargs, wfList, hw])

theorem wf_parse_command (fuel : Nat) (st : PState) (p : ASTNode × PState)
    (h : parse_command fuel st = .ok p) : wfNode p.1 = true := by
  match fuel with
  | 0 => exact (Except.noConfusion h)
  | fuel+1 =>
    simp only [parse_command] at h
    split at h
    · split at h
      · exact (Except.noConfusion h)
      · split at h
        · exact (Except.noConfusion h)
        · rename_i args2 st2 hq
          have hargs : wfList args2 = true := by
            simpa using wf_parse_command_args _ _ _ _ hq (by simp [wfList])
          split at h
          · split at h
            · exact (Except.noConfusion h)
            · obtain rfl := Except.ok.inj h
              simpa [wfNode] using hargs
          · obtain rfl := Except.ok.inj h
            simpa [wfNode] using hargs
    · exact (Except.noConfusion h)

theorem wf_parse_pipeline_loop : ∀ (fuel : Nat) (cmds : List ASTNode) (st : PState)
    (p : List ASTNode × PState), parse_pipeline_loop fuel cmds st = .ok p →
    wfList cmds = true → wfList p.1 = true ∧ cmds.length ≤ p.1.length := by
  intro fuel
  induction fuel with
  | zero => intro cmds st p h _; exact (Except.noConfusion h)
  | succ n ih =>
    intro cmds st p h hcmds
    simp only [parse_pipeline_loop] at h
    split at h
    · split at h
      · exact (Except.noConfusion h)
      · split at h
        · exact (Except.noConfusion h)
        · rename_i cmd st2 hq
          have hw : wfNode cmd = true := by
            simpa using wf_parse_command _ _ _ hq
          have hrec := ih _ _ _ h (by simp [wfList_append, hcmds, wfList, hw])
          refine ⟨hrec.1, ?_⟩
          calc cmds.length ≤ (cmds ++ [cmd]).length := by simp
            _ ≤ p.1.length := hrec.2
    · obtain rfl := Except.ok.inj h
      exact ⟨hcmds, Nat.le_refl _⟩

theorem wf_parse_pipeline (fuel : Nat) (st : PState) (p : ASTNode × PState)
    (h : parse_pipeline fuel st = .ok p) : wfNode p.1 = true := by
  match fuel with
  | 0 => exact (Except.noConfusion h)
  | fuel+1 =>
    simp only [parse_pipeline] at h
    split at h
    · exact (Except.noConfusion h)
    · rename_i first st1 hq
      have hw : wfNode first = true := by
        simpa using wf_parse_command _ _ _ hq
      split at h
      · exact (Except.noConfusion h)
      · rename_i commands st2 hq2
        have hloop := wf_parse_pipeline_loop _ _ _ _ hq2 (by simp [wfList, hw])
        simp only at hloop
        split at h
        · split at h
          · rename_i c
            obtain rfl := Except.ok.inj h
            simpa [wfList] using hloop.1
          · exfalso
            have hone : commands.length = 1 := by assumption
            have hnotc : ∀ c : ASTNode, commands = [c] → False := by assumption
            cases commands with
            | nil => exact absurd hone (by simp)
            | cons a rest =>
              cases rest with
              | nil => exact hnotc a rfl
              | cons b r2 => exact absurd hone (by simp)
        · obtain rfl := Except.ok.inj h
          rename_i hlen
          simp only [wfNode, Bool.and_eq_true, decide_eq_true_eq]
          have h1 : 1 ≤ commands.length := by simpa using hloop.2
          exact ⟨by omega, hloop.1⟩

theorem wf_parse_condition (fuel : Nat) (st : PState) (p : ASTNode × PState)
    (h : parse_condition fuel st = .ok p) : wfNode p.1 = true :=
  wf_parse_pipeline _ _ _ h

theorem wf_parse_command_or_assignment (fuel : Nat) (st : PState)
    (p : ASTNode × PState) (h : parse_command_or_assignment fuel st = .ok p) :
    wfNode p.1 = true := by
  unfold parse_command_or_assignment at h
  split at h
  · split at h
    · exact (Except.noConfusion h)
    · dsimp only at h
      split at h
      · exact wf_parse_assignment _ _ _ h
      · exact wf_parse_pipeline _ _ _ h
  · exact wf_parse_pipeline _ _ _ h

theorem wf_parse_return (fuel : Nat) (st : PState) (p : ASTNode × PState)
    (h : parse_return fuel st = .ok p) : wfNode p.1 = true := by
  match fuel with
  | 0 => exact (Except.noConfusion h)
  | fuel+1 =>
    simp only [parse_return] at h
    split at h
    · exact (Except.noConfusion h)
    · split at h
      · obtain rfl := Except.ok.inj h
        simp [wfNode, wfOpt]
      · split at h
        · exact (Except.noConfusion h)
        · rename_i v st2 hq
          obtain rfl := Except.ok.inj h
          have hv : wfNode v = true := by simpa using wf_parse_word _ _ _ hq
          simp [wfNode, wfOpt, hv]

theorem wf_parse_exit (fuel : Nat) (st : PState) (p : ASTNode × PState)
    (h : parse_exit fuel st = .ok p) : wfNode p.1 = true := by
  match fuel with
  | 0 => exact (Except.noConfusion h)
  | fuel+1 =>
    simp only [parse_exit] at h
    split at h
    · exact (Except.noConfusion h)
    · split at h
      · obtain rfl := Except.ok.inj h
        simp [wfNode, wfOpt]
      · split at h
        · exact (Except.noConfusion h)
        · rename_i v st2 hq
          obtain rfl := Except.ok.inj h
          have hv : wfNode v = true := by simpa using wf_parse_word _ _ _ hq
          simp [wfNode, wfOpt, hv]

theorem wf_parse_export (fuel : Nat) (st : PState) (p : ASTNode × PState)
    (h : parse_export fuel st = .ok p) : wfNode p.1 = true := by
  match fuel with
  | 0 => exact (Except.noConfusion h)
  | fuel+1 =>
    simp only [parse_export] at h
    split at h
    · exact (Except.noConfusion h)
    · split at h
      · exact (Except.noConfusion h)
      · rename_i node st2 hq
        have hw : wfNode node = true := by
          simpa using wf_parse_assignment_or_word _ _ _ hq
        split at h
        · rename_i name value ex ro lo
          obtain rfl := Except.ok.inj h
          simp only [wfNode] at hw ⊢
          exact hw
        · obtain rfl := Except.ok.inj h
          exact hw

theorem wf_parse_local (fuel : Nat) (st : PState) (p : ASTNode × PState)
    (h : parse_local fuel st = .ok p) : wfNode p.1 = true := by
  match fuel with
  | 0 => exact (Except.noConfusion h)
  | fuel+1 =>
    simp only [parse_local] at h
    split at h
    · exact (Except.noConfusion h)
    · split at h
      · exact (Except.noConfusion h)
      · rename_i node st2 hq
        have hw : wfNode node = true := by
          simpa using wf_parse_assignment_or_word _ _ _ hq
        split at h
        · rename_i name value ex ro lo
          obtain rfl := Except.ok.inj h
          simp only [wfNode] at hw ⊢
          exact hw
        · obtain rfl := Except.ok.inj h
          exact hw

theorem wf_parse_readonly (fuel : Nat) (st : PState) (p : ASTNode × PState)
    (h : parse_readonly fuel st = .ok p) : wfNode p.1 = true := by
  match fuel with
  | 0 => exact (Except.noConfusion h)
  | fuel+1 =>
    simp only [parse_readonly] at h
    split at h
    · exact (Except.noConfusion h)
    · split at h
      · exact (Except.noConfusion h)
      · rename_i node st2 hq
        have hw : wfNode node = true := by
          simpa using wf_parse_assignment_or_word _ _ _ hq
        split at h
        · rename_i name value ex ro lo
          obtain rfl := Except.ok.inj h
          simp only [wfNode] at hw ⊢
          exact hw
        · obtain rfl := Except.ok.inj h
          exact hw

theorem wf_parse_for_items : ∀ (fuel : Nat) (items : List ASTNode) (st : PState)
    (p : List ASTNode × PState), parse_for_items fuel items st = .ok p →
    wfList items = true → wfList p.1 = true := by
  intro fuel
  induction fuel with
  | zero => intro items st p h _; exact (Except.noConfusion h)
  | succ n ih =>
    intro items st p h hitems
    simp only [parse_for_items] at h
    split at h
    · obtain rfl := Except.ok.inj h
      exact hitems
    · split at h
      · exact (Except.noConfusion h)
      · rename_i w st2 hq
        have hw : wfNode w = true := by simpa using wf_parse_word _ _ _ hq
        exact ih _ _ _ h (by simp [wfList_append, hitems, wfList, hw])

end ParserWfLemmas

section ParserWfMutual

theorem parser_statements_wf : ∀ fuel : Nat,
    (∀ st p, parse_statement fuel st = .ok p → wfNode p.1 = true) ∧
    (∀ st p, parse_if fuel st = .ok p → wfNode p.1 = true) ∧
    (∀ acc st p, parse_if_elifs fuel acc st = .ok p → wfPairs acc = true →
        wfPairs p.1 = true) ∧
    (∀ st p, parse_while fuel st = .ok p → wfNode p.1 = true) ∧
    (∀ st p, parse_until fuel st = .ok p → wfNode p.1 = true) ∧
    (∀ st p, parse_for fuel st = .ok p → wfNode p.1 = true) ∧
    (∀ st p, parse_function fuel st = .ok p → wfNode p.1 = true) ∧
    (∀ st p, parse_block fuel st = .ok p → wfNode p.1 = true) ∧
    (∀ st p, parse_subshell fuel st = .ok p → wfNode p.1 = true) ∧
    (∀ acc st p, parse_subshell_stmts fuel acc st = .ok p → wfList acc = true →
        wfList p.1 = true) ∧
    (∀ terms st p, parse_block_until fuel terms st = .ok p → wfNode p.1 = true) ∧
    (∀ terms acc st p, parse_block_stmts fuel terms acc st = .ok p →
        wfList acc = true → wfList p.1 = true) := by
  intro fuel
  induction fuel with
  | zero =>
    refine ⟨?_, ?_, ?_, ?_, ?_, ?_, ?_, ?_, ?_, ?_, ?_, ?_⟩ <;>
      · intros
        rename_i h1 h2
        first
          | exact (Except.noConfusion h2)
          | exact (Except.noConfusion h1)
  | succ n ih =>
    obtain ⟨ihStmt, ihIf, ihElifs, ihWhile, ihUntil, ihFor, ihFn, ihBlk, ihSub,
      ihSubL, ihBU, ihBUL⟩ := ih
    refine ⟨?_, ?_, ?_, ?_, ?_, ?_, ?_, ?_, ?_, ?_, ?_, ?_⟩
    -- parse_statement
    · intro st p h
      simp only [parse_statement] at h
      split at h
      · exact ihIf _ _ h
      · exact ihWhile _ _ h
      · exact ihUntil _ _ h
      · exact ihFor _ _ h
      · exact (Except.noConfusion h)                -- parse_case errors
      · exact ihFn _ _ h
      · exact wf_parse_export _ _ _ h
      · exact wf_parse_local _ _ _ h
      · exact wf_parse_readonly _ _ _ h
      · exact wf_parse_return _ _ _ h
      · exact wf_parse_exit _ _ _ h
      · exact ihBlk _ _ h
      · exact ihSub _ _ h
      · exact wf_parse_command_or_assignment _ _ _ h
    -- parse_if
    · intro st p h
      simp only [parse_if] at h
      split at h
      · exact (Except.noConfusion h)
      · split at h
        · exact (Except.noConfusion h)
        · rename_i condition st1 hc
          have hwc : wfNode condition = true := by
            simpa using wf_parse_condition _ _ _ hc
          split at h
          · exact (Except.noConfusion h)
          · split at h
            · exact (Except.noConfusion h)
            · rename_i then_block st2 ht
              have hwt : wfNode then_block = true := by
                simpa using ihBU _ _ _ ht
              split at h
              · exact (Except.noConfusion h)
              · rename_i elifs st3 he
                have hwe : wfPairs elifs = true := by
                  simpa using ihElifs _ _ _ he (by simp [wfPairs])
                split at h
                · exact (Except.noConfusion h)
                · rename_i eb st4 heb
                  have hweb : wfOpt eb = true := by
                    -- eb comes from the else step
                    revert heb
                    split
                    · split
                      · intro heb; exact (Except.noConfusion heb)
                      · split
                        · intro heb; exact (Except.noConfusion heb)
                        · rename_i blk st5 hblk
                          intro heb
                          obtain ⟨rfl, rfl⟩ := Prod.mk.injEq _ _ _ _ ▸
                            Except.ok.inj heb
                          simpa [wfOpt] using ihBU _ _ _ hblk
                    · intro heb
                      obtain ⟨rfl, rfl⟩ := Prod.mk.injEq _ _ _ _ ▸
                        Except.ok.inj heb
                      simp [wfOpt]
                  split at h
                  · exact (Except.noConfusion h)
                  · obtain rfl := Except.ok.inj h
                    simp [wfNode, hwc, hwt, hwe, hweb]
    -- parse_if_elifs
    · intro acc st p h hacc
      simp only [parse_if_elifs] at h
      split at h
      · split at h
        · exact (Except.noConfusion h)
        · split at h
          · exact (Except.noConfusion h)
          · rename_i c st1 hc
            have hwc : wfNode c = true := by
              simpa using wf_parse_condition _ _ _ hc
            split at h
            · exact (Except.noConfusion h)
            · split at h
              · exact (Except.noConfusion h)
              · rename_i b st2 hb
                have hwb : wfNode b = true := by
                  simpa using ihBU _ _ _ hb
                exact ihElifs _ _ _ h
                  (by simp [wfPairs_append, hacc, wfPairs, hwc, hwb])
      · obtain rfl := Except.ok.inj h
        exact hacc
    -- parse_while
    · intro st p h
      simp only [parse_while] at h
      split at h
      · exact (Except.noConfusion h)
      · split at h
        · exact (Except.noConfusion h)
        · rename_i condition st1 hc
          have hwc : wfNode condition = true := by
            simpa using wf_parse_condition _ _ _ hc
          split at h
          · exact (Except.noConfusion h)
          · split at h
            · exact (Except.noConfusion h)
            · rename_i body st2 hb
              have hwb : wfNode body = true := by
                simpa using ihBU _ _ _ hb
              split at h
              · exact (Except.noConfusion h)
              · obtain rfl := Except.ok.inj h
                simp [wfNode, hwc, hwb]
    -- parse_until
    · intro st p h
      simp only [parse_until] at h
      split at h
      · exact (Except.noConfusion h)
      · split at h
        · exact (Except.noConfusion h)
        · rename_i condition st1 hc
          have hwc : wfNode condition = true := by
            simpa using wf_parse_condition _ _ _ hc
          split at h
          · exact (Except.noConfusion h)
          · split at h
            · exact (Except.noConfusion h)
            · rename_i body st2 hb
              have hwb : wfNode body = true := by
                simpa using ihBU _ _ _ hb
              split at h
              · exact (Except.noConfusion h)
              · obtain rfl := Except.ok.inj h
                simp [wfNode, hwc, hwb]
    -- parse_for
    · intro st p h
      simp only [parse_for] at h
      split at h
      · exact (Except.noConfusion h)
      · split at h
        · split at h
          · exact (Except.noConfusion h)
          · split at h
            · exact (Except.noConfusion h)
            · split at h
              · exact (Except.noConfusion h)
              · rename_i items st1 hi
                have hwi : wfList items = true := by
                  simpa using wf_parse_for_items _ _ _ _ hi (by simp [wfList])
                split at h
                · exact (Except.noConfusion h)
                · split at h
                  · exact (Except.noConfusion h)
                  · rename_i body st2 hb
                    have hwb : wfNode body = true := by
                      simpa using ihBU _ _ _ hb
                    split at h
                    · exact (Except.noConfusion h)
                    · obtain rfl := Except.ok.inj h
                      simp [wfNode, wfItems, hwi, hwb]
        · exact (Except.noConfusion h)
    -- parse_function
    · intro st p h
      simp only [parse_function] at h
      split at h
      · exact (Except.noConfusion h)
      · split at h
        · split at h
          · exact (Except.noConfusion h)
          · split at h
            · exact (Except.noConfusion h)
            · rename_i st2 hp
              split at h
              · exact (Except.noConfusion h)
              · rename_i body st3 hb
                have hwb : wfNode body = true := by
                  revert hb
                  split
                  · intro hb; simpa using ihBlk _ _ hb
                  · intro hb; simpa using ihStmt _ _ hb
                obtain rfl := Except.ok.inj h
                simp [wfNode, hwb]
        · exact (Except.noConfusion h)
    -- parse_block
    · intro st p h
      simp only [parse_block] at h
      split at h
      · exact (Except.noConfusion h)
      · split at h
        · exact (Except.noConfusion h)
        · rename_i blk st1 hb
          have hwb : wfNode blk = true := by
            simpa using ihBU _ _ _ hb
          split at h
          · exact (Except.noConfusion h)
          · obtain rfl := Except.ok.inj h
            exact hwb
    -- parse_subshell
    · intro st p h
      simp only [parse_subshell] at h
      split at h
      · exact (Except.noConfusion h)
      · split at h
        · exact (Except.noConfusion h)
        · rename_i stmts st1 hs
          have hws : wfList stmts = true := by
            simpa using ihSubL _ _ _ hs (by simp [wfList])
          split at h
          · exact (Except.noConfusion h)
          · obtain rfl := Except.ok.inj h
            simpa [wfNode] using hws
    -- parse_subshell_stmts
    · intro acc st p h hacc
      simp only [parse_subshell_stmts] at h
      split at h
      · split at h
        · exact (Except.noConfusion h)
        · rename_i stmt st1 hs
          have hw : wfNode stmt = true := by
            simpa using ihStmt _ _ hs
          exact ihSubL _ _ _ h (by simp [wfList_append, hacc, wfList, hw])
      · obtain rfl := Except.ok.inj h
        exact hacc
    -- parse_block_until
    · intro terms st p h
      simp only [parse_block_until] at h
      split at h
      · exact (Except.noConfusion h)
      · rename_i stmts st1 hs
        have hws : wfList stmts = true := by
          simpa using ihBUL _ _ _ _ hs (by simp [wfList])
        obtain rfl := Except.ok.inj h
        simpa [wfNode] using hws
    -- parse_block_stmts
    · intro terms acc st p h hacc
      simp only [parse_block_stmts] at h
      split at h
      · split at h
        · split at h
          · exact (Except.noConfusion h)
          · exact ihBUL _ _ _ _ h hacc
        · split at h
          · exact (Except.noConfusion h)
          · rename_i stmt st1 hs
            have hw : wfNode stmt = true := by
              simpa using ihStmt _ _ hs
            exact ihBUL _ _ _ _ h (by simp [wfList_append, hacc, wfList, hw])
      · obtain rfl := Except.ok.inj h
        exact hacc

end ParserWfMutual

section ParserWfTop

theorem wf_parse_script_stmts : ∀ (fuel : Nat) (acc : List ASTNode) (st : PState)
    (p : List ASTNode × PState), parse_script_stmts fuel acc st = .ok p →
    wfList acc = true → wfList p.1 = true := by
  intro fuel
  induction fuel with
  | zero => intro acc st p h _; exact (Except.noConfusion h)
  | succ n ih =>
    intro acc st p h hacc
    simp only [parse_script_stmts] at h
    split at h
    · split at h
      · split at h
        · exact (Except.noConfusion h)
        · exact ih _ _ _ h hacc
      · split at h
        · exact (Except.noConfusion h)
        · rename_i stmt st1 hs
          have hw : wfNode stmt = true := by
            simpa using (parser_statements_wf n).1 _ _ hs
          split at h
          · exact (Except.noConfusion h)
          · exact ih _ _ _ h (by simp [wfList_append, hacc, wfList, hw])
    · obtain rfl := Except.ok.inj h
      exact hacc

theorem wf_parse_script (fuel : Nat) (st : PState) (p : ASTNode × PState)
    (h : parse_script fuel st = .ok p) : wfNode p.1 = true := by
  match fuel with
  | 0 => exact (Except.noConfusion h)
  | fuel+1 =>
    simp only [parse_script] at h
    split at h
    · exact (Except.noConfusion h)
    · rename_i stmts st1 hs
      have hws : wfList stmts = true := by
        simpa using wf_parse_script_stmts _ _ _ _ hs (by simp [wfList])
      obtain rfl := Except.ok.inj h
      simpa [wfNode] using hws

theorem wf_ShellParser_parse (fuel : Nat) (st : PState) (ast : AST)
    (h : ShellParser.parse fuel st = .ok ast) : wfNode ast.root = true := by
  unfold ShellParser.parse at h
  split at h
  · exact (Except.noConfusion h)
  · rename_i root st1 hr
    obtain rfl := Except.ok.inj h
    simpa using wf_parse_script _ _ _ hr

theorem wf_parseProgram (fuel : Nat) (input : String) (dialect : ShellDialect)
    (ast : AST) (h : parseProgram fuel input dialect = .ok ast) :
    wfNode ast.root = true := by
  unfold parseProgram at h
  split at h
  · exact (Except.noConfusion h)
  · exact wf_ShellParser_parse _ _ _ h

end ParserWfTop

section WitnessFixtures

/-- The `resolve` output of the read-once/write-once scenario, for the C6
witness. -/
def c6run : List Dependency × Resolver :=
  match resolve fsAbsent 100 catRmAST (DependencyResolver.new "/s/main.sh") with
  | .ok p => p
  | .error _ => ([], DependencyResolver.new "")

/-- A small concrete dependency record. -/
def d0fix : Dependency :=
  { path := "/a", dep_type := .DataFile, usage := {}, line_numbers := [] }

/-- A sourced-usage sighting. -/
def u1fix : FileUsage := { is_sourced := true }

/-- A write sighting. -/
def u2fix : FileUsage := { write_count := 1 }

end WitnessFixtures

section ClaimTheorems

/-- C1: the spec (and the repo's own `test_parse_simple_command`) claims that
parsing `echo hello world` succeeds with a `Command` node named `echo` with
two arguments.  On the code it fails: the lexer turns `echo` into the
dedicated `Token::Echo` keyword token, and `parse_command` accepts only a
`Word` token as the command name, so the parse errors with "Expected
command name". -/
theorem c1_echo_command_parse_fails :
    parseProgram 100 "echo hello world" .Bash = .error .expectedCommandName ∧
    lexFirstToken 100 "echo hello world" .Bash = .ok .Echo :=
  ⟨rfl, rfl⟩

/-- C2: the spec claims `NAME=value` parses to an assignment (no-space
syntax) and `export PATH=/usr/bin` to an exported assignment.  On the code
both fail: the lookahead reads `input[lexer.position..]`, which starts one
character past the parser's current character (the `=`), so the in-place
`=` is never seen; conversely `NAME =value` — with a space — is accepted as
an assignment. -/
theorem c2_assignment_lookahead_off_by_one :
    parseProgram 100 "NAME=value" .Bash = .error (.unexpectedToken .Assign) ∧
    parseProgram 100 "export PATH=/usr/bin" .Bash = .error .expectedCommandName ∧
    parseProgram 100 "NAME =value" .Bash =
      .ok { root := .Script [.Assignment "NAME" (.Str "value" .Unquoted)
              false false false],
            metadata := {} } :=
  ⟨rfl, rfl, rfl⟩

/-- C3 counterexample: an `@Version:` header that appears after the first
blank line is still extracted (`some "9.9"`), contradicting the claim that
the scan stops at the first blank line. -/
theorem c3_blank_line_counterexample :
    (extract_metadata "# x\n\n# @Version: 9.9\nrun".data).version =
      some "9.9" :=
  rfl

/-- C3 amended: metadata extraction stops at the first non-blank non-comment
line (tags after it are not extracted), but blank lines do not stop the
scan — they are passed over, so a tag following a blank line (before any
non-blank non-comment line) is extracted. -/
theorem c3_metadata_scan_amended :
    (∀ (md : ScriptMetadata) (rawLine : List Char) (rest : List (List Char)),
        lcTrim rawLine ≠ [] → lcLeads "#".data (lcTrim rawLine) = false →
        metaLoop md (rawLine :: rest) = md) ∧
    (extract_metadata "# x\n\n# @Version: 9.9\nrun".data).version =
      some "9.9" ∧
    (extract_metadata "# a\nrun\n# @Version: 2".data).version = none := by
  refine ⟨?_, rfl, rfl⟩
  intro md rawLine rest h1 h2
  simp [metaLoop, h1, h2]

/-- C3 amended, witness: the stop-line rule applied at the concrete line
`run`. -/
theorem c3_metadata_scan_amended_witness :
    metaLoop {} ("run".data :: ["# @Version: 2".data]) = ({} : ScriptMetadata) :=
  c3_metadata_scan_amended.1 {} "run".data ["# @Version: 2".data]
    (by decide) (by decide)

/-- C4 counterexample: a sourced file that exists but cannot be read is not
skipped silently — `resolve` returns an error (the `?` on
`read_to_string`), contradicting the claim that any unreadable sourced
file is skipped with `resolve` still returning `Ok`. -/
theorem c4_unreadable_source_counterexample :
    resolve fsUnreadableU 100 srcGccAST (DependencyResolver.new "/s/main.sh") =
      .error .failedToReadSourcedFile :=
  rfl

/-- C4 amended: a sourced file that does not exist, or that exists and
reads but fails to parse, is skipped silently and the walk continues with
`resolve` returning `Ok` (the later `gcc` dependency is still collected);
a file that exists but cannot be read makes `resolve` return an error; and
any walk step at recursion depth exceeding the fixed bound (15, set by
`DependencyResolver::new`) makes the analysis return an error, which
propagates to `resolve`. -/
theorem c4_source_failure_amended :
    ((resolve fsAbsent 100 srcGccAST (DependencyResolver.new "/s/main.sh")).map
        (fun p => p.1.map (·.path)) = .ok ["/u.sh", "gcc"]) ∧
    ((resolve fsCaseU 200 srcGccAST (DependencyResolver.new "/s/main.sh")).map
        (fun p => p.1.map (·.path)) = .ok ["/u.sh", "gcc"]) ∧
    (∀ sp : String, (DependencyResolver.new sp).max_source_depth = 15) ∧
    (∀ (fs : FS) (fuel : Nat) (node : ASTNode) (depth : Nat) (r : Resolver),
        depth > r.max_source_depth →
        analyze_ast_node fs (fuel + 1) node depth r =
          .error .maxSourceDepthExceeded) := by
  refine ⟨rfl, rfl, fun _ => rfl, ?_⟩
  intro fs fuel node depth r h
  simp [analyze_ast_node, h]

/-- C4 amended, witness: the depth guard fired at depth 16 against the
configured bound 15. -/
theorem c4_source_failure_amended_witness :
    analyze_ast_node fsAbsent 1 .Break 16 (DependencyResolver.new "/s/main.sh") =
      .error .maxSourceDepthExceeded :=
  c4_source_failure_amended.2.2.2 fsAbsent 0 .Break 16
    (DependencyResolver.new "/s/main.sh") (by decide)

/-- C5: the spec (and the repo's own terminal-detector tests) claims the
end-to-end pipeline on a script containing `read -s PASSWORD` yields
UserInput and PasswordInput with an Interactive requirement.  On the code
the pipeline fails at the parse step — `read` lexes to the `Token::Read`
keyword, which `parse_command` rejects — while the detector itself, run on
the AST the spec intends, does produce exactly those features and the
Interactive requirement. -/
theorem c5_read_password_pipeline :
    parseProgram 100 "read -s PASSWORD" .Bash = .error .expectedCommandName ∧
    (TerminalDetector.analyze 100 readPasswordAST).features_used.contains
      .UserInput = true ∧
    (TerminalDetector.analyze 100 readPasswordAST).features_used.contains
      .PasswordInput = true ∧
    (TerminalDetector.analyze 100 readPasswordAST).requirement = .Interactive :=
  ⟨rfl, rfl, rfl, rfl⟩

/-- C6: `resolve` (from a fresh resolver) returns at most one dependency
per distinct resolved path — the returned paths are pairwise distinct;
re-sighting a recorded path merges by `mergeDependency`, which sums the
read/write/append counts and ORs the boolean flags; and the concrete
read-once/write-once script yields exactly one record for its path with
`read_count = 1` and `write_count = 1`. -/
theorem c6_dependency_merge :
    (∀ (fs : FS) (fuel : Nat) (ast : AST) (script_path : String)
        (p : List Dependency × Resolver),
        resolve fs fuel ast (DependencyResolver.new script_path) = .ok p →
        (p.1.map (·.path)).Nodup) ∧
    (∀ (deps : List (String × Dependency)) (path : String) (t : DependencyType)
        (u : FileUsage) (ln : List Nat) (d : Dependency),
        depsLookup path deps = some d →
        depsLookup path (depsUpsert path t u ln deps) =
          some (mergeDependency d u ln)) ∧
    (∀ (d : Dependency) (u : FileUsage) (ln : List Nat),
        (mergeDependency d u ln).usage.read_count =
          d.usage.read_count + u.read_count ∧
        (mergeDependency d u ln).usage.write_count =
          d.usage.write_count + u.write_count ∧
        (mergeDependency d u ln).usage.append_count =
          d.usage.append_count + u.append_count ∧
        (mergeDependency d u ln).usage.in_loop = (d.usage.in_loop || u.in_loop) ∧
        (mergeDependency d u ln).usage.in_condition =
          (d.usage.in_condition || u.in_condition) ∧
        (mergeDependency d u ln).usage.is_sourced =
          (d.usage.is_sourced || u.is_sourced) ∧
        (mergeDependency d u ln).usage.is_monitored =
          (d.usage.is_monitored || u.is_monitored)) ∧
    ((resolve fsAbsent 100 catRmAST (DependencyResolver.new "/s/main.sh")).map
        (fun p => p.1.filter (fun d => d.path == "/data/x")) =
      .ok [{ path := "/data/x", dep_type := .DataFile,
             usage := { read_count := 1, write_count := 1 },
             line_numbers := [] }]) :=
  ⟨resolve_paths_nodup,
   fun deps path t u ln d h => depsLookup_upsert_self path t u ln deps d h,
   fun _ _ _ => ⟨rfl, rfl, rfl, rfl, rfl, rfl, rfl⟩,
   rfl⟩

/-- C6 witness: the distinct-paths invariant at the concrete
read-once/write-once run, and the merge rule at a concrete one-entry map. -/
theorem c6_dependency_merge_witness :
    (c6run.1.map (·.path)).Nodup ∧
    depsLookup "/a" (depsUpsert "/a" .SourceFile u1fix [] [("/a", d0fix)]) =
      some (mergeDependency d0fix u1fix []) :=
  ⟨c6_dependency_merge.1 fsAbsent 100 catRmAST "/s/main.sh" c6run rfl,
   c6_dependency_merge.2.1 [("/a", d0fix)] "/a" .SourceFile u1fix [] d0fix rfl⟩

/-- C7: no AST the parser returns contains a `Pipeline` node with fewer
than two elements; a lone command collapses to that command node (no
`Pipeline` for the script `a` followed by a newline), and `a | b | c`
yields a `Pipeline` of exactly three elements.  For the bare script `a`
(no trailing newline) the leading word ends at end-of-input, so the
assignment lookahead's raw slice starts past the end of the input and
the program aborts (`sliceIndexOutOfRange`) instead of returning an
AST — which also produces no undersized `Pipeline`. -/
theorem c7_pipeline_invariant :
    (∀ (fuel : Nat) (input : String) (dialect : ShellDialect) (ast : AST),
        parseProgram fuel input dialect = .ok ast → wfNode ast.root = true) ∧
    (parseProgram 100 "a\n" .Bash =
      .ok { root := .Script [.Command "a" [] [] false], metadata := {} }) ∧
    (parseProgram 100 "a" .Bash = .error .sliceIndexOutOfRange) ∧
    (parseProgram 100 "a | b | c" .Bash = .ok pipe3AST) :=
  ⟨wf_parseProgram, rfl, rfl, rfl⟩

/-- C7 witness: the invariant applied to the concrete parse of
`a | b | c`. -/
theorem c7_pipeline_invariant_witness : wfNode pipe3AST.root = true :=
  c7_pipeline_invariant.1 100 "a | b | c" .Bash pipe3AST rfl

/-- C8: lexing `'a'`, `"a"` and a backtick-quoted `a` yields `Str "a"`
tagged with the matching quote kind, as claimed; but lexing `$'a\nb'`
yields payload `"\nb"` — the `\n` escape is decoded, yet the leading `a`
is lost, because `read_ansi_string` advances twice ("skip $", "skip '")
although `next_token` already consumed the `$`, so the second advance
swallows the first content character.  The repo's own `test_string_tokens`
expects the undropped payload. -/
theorem c8_quote_roundtrip :
    lexFirstToken 100 "'a'" .Bash = .ok (.Str "a" .Single) ∧
    lexFirstToken 100 "\"a\"" .Bash = .ok (.Str "a" .Double) ∧
    lexFirstToken 100 "`a`" .Bash = .ok (.Str "a" .Backtick) ∧
    lexFirstToken 100 "$'a\\nb'" .Bash = .ok (.Str "\nb" .Ansi) ∧
    ("\nb" : String) ≠ "a\nb" :=
  ⟨rfl, rfl, rfl, rfl, by decide⟩

/-- C9: `classify` is deterministic (a pure function: equal inputs give
equal outputs) and its result does not depend on the context's
`usage_pattern` field — two contexts equal in every other field classify
every path identically, with identical justification. -/
theorem c9_classify_usage_independent :
    (∀ (m : Nat) (path : String) (c : FileContext),
        classify m path c = classify m path c) ∧
    (∀ (m : Nat) (path : String) (c1 c2 : FileContext),
        c1.is_local_to_script = c2.is_local_to_script →
        c1.is_modified = c2.is_modified →
        c1.is_monitored = c2.is_monitored →
        c1.is_sourced = c2.is_sourced →
        c1.size = c2.size →
        classify m path c1 = classify m path c2) := by
  refine ⟨fun _ _ _ => rfl, ?_⟩
  intro m path c1 c2 h1 h2 h3 h4 h5
  cases c1
  cases c2
  simp only at h1 h2 h3 h4 h5
  subst h1 h2 h3 h4 h5
  rfl

/-- C9 witness: two contexts differing only in `usage_pattern` classify
`config.toml` identically. -/
theorem c9_classify_usage_independent_witness :
    classify FileClassifier.default_max_embed_size "config.toml"
      { is_local_to_script := true, usage_pattern := .ReadOnly } =
    classify FileClassifier.default_max_embed_size "config.toml"
      { is_local_to_script := true, usage_pattern := .Unknown } :=
  c9_classify_usage_independent.2 FileClassifier.default_max_embed_size
    "config.toml" _ _ rfl rfl rfl rfl rfl

/-- C10: merging a repeated sighting into an existing dependency record
changes only the usage counts, the boolean flags and the line-number list:
the record's `path`, its `DependencyType` and even the `commands` list are
untouched, and other keys of the map are unaffected; concretely, a path
first recorded as `DataFile` (via `cat`) stays `DataFile` in the final
output even after a later `source` sighting that alone would have
recorded `SourceFile`. -/
theorem c10_merge_frame :
    (∀ (deps : List (String × Dependency)) (path : String) (t : DependencyType)
        (u : FileUsage) (ln : List Nat) (d : Dependency),
        depsLookup path deps = some d →
        depsLookup path (depsUpsert path t u ln deps) =
            some (mergeDependency d u ln) ∧
          (mergeDependency d u ln).path = d.path ∧
          (mergeDependency d u ln).dep_type = d.dep_type ∧
          (mergeDependency d u ln).usage.commands = d.usage.commands ∧
          (mergeDependency d u ln).line_numbers = d.line_numbers ++ ln) ∧
    (∀ (k path : String) (t : DependencyType) (u : FileUsage) (ln : List Nat)
        (deps : List (String × Dependency)), k ≠ path →
        depsLookup k (depsUpsert path t u ln deps) = depsLookup k deps) ∧
    ((resolve fsAbsent 100 catSourceAST (DependencyResolver.new "/s/main.sh")).map
        (fun p => p.1.filter (fun d => d.path == "/lib/x.sh")) =
      .ok [{ path := "/lib/x.sh", dep_type := .DataFile,
             usage := { read_count := 1, is_sourced := true },
             line_numbers := [] }]) :=
  ⟨fun deps path t u ln d h =>
      ⟨depsLookup_upsert_self path t u ln deps d h, rfl, rfl, rfl, rfl⟩,
   fun k path t u ln deps hne => depsLookup_upsert_other k path t u ln hne deps,
   rfl⟩

/-- C10 witness: the frame rule at a concrete one-entry map and a concrete
unrelated key. -/
theorem c10_merge_frame_witness :
    (depsLookup "/a" (depsUpsert "/a" .BinaryCommand u2fix [] [("/a", d0fix)]) =
        some (mergeDependency d0fix u2fix []) ∧
      (mergeDependency d0fix u2fix []).path = d0fix.path ∧
      (mergeDependency d0fix u2fix []).dep_type = d0fix.dep_type ∧
      (mergeDependency d0fix u2fix []).usage.commands = d0fix.usage.commands ∧
      (mergeDependency d0fix u2fix []).line_numbers = d0fix.line_numbers ++ []) ∧
    depsLookup "/b" (depsUpsert "/a" .BinaryCommand u2fix [] [("/a", d0fix)]) =
      depsLookup "/b" [("/a", d0fix)] :=
  ⟨c10_merge_frame.1 [("/a", d0fix)] "/a" .BinaryCommand u2fix [] d0fix rfl,
   c10_merge_frame.2.1 "/b" "/a" .BinaryCommand u2fix [] [("/a", d0fix)]
     (by decide)⟩

end ClaimTheorems
